import Mathlib

/-
Verification development for the puregotk glib callback registry and the
source-trampoline multiplexer.

The Go code under analysis lives in the glib package (callbacks file):
  - a package-level `callbacks` record with five maps
      refs              : map[uintptr]uintptr
      closures          : map[uintptr]interface{}
      handlerToCallback : map[uint]uintptr
      sourceToCallback  : map[uint]uintptr
      callbackRefCount  : map[uintptr]int
  - the operations GetCallback, SaveCallback, SaveCallbackWithClosure,
    RemoveCallback, acquireCallbackRef, hasCallbackMappings,
    releaseCallbackRef, SaveHandlerMapping, RemoveCallbackByHandler,
    SaveSourceMapping, RemoveCallbackBySource
  - the source trampoline state `sourceTrampolines` with the two shared
    dispatch entry points (the local closures `fn` and `onceFn` installed by
    initSourceTrampoline), registerSourceFunc, registerSourceOnceFunc,
    saveSourceTrampolineMapping, removeSourceTrampolineBySourceID and
    NewCallbackNullable,
plus Object.ConnectSignal from the gobject package.

Go maps are embedded as association lists over Nat keys; uintptr and uint
become Nat, Go's int becomes Int.  Each definition below is a direct
transcription of the corresponding Go function body; locking is dropped
(the Go code takes a single lock around each whole operation, so every
operation is one atomic state transformation) and external effects
(purego.NewCallback slot allocation, the native g_signal_connect call) are
passed in as explicit oracle arguments.
-/

namespace Puregotk

/-- Lookup in an association list, the embedding of a Go map read
`v, ok := m[k]`.  Returns the value of the first pair whose key is `k`. -/
def lookupK (k : Nat) : List (Nat × α) → Option α
  | [] => none
  | p :: l => if p.1 = k then some p.2 else lookupK k l

/-- Remove every pair with key `k`: the embedding of Go's `delete(m, k)`. -/
def eraseK (k : Nat) : List (Nat × α) → List (Nat × α)
  | [] => []
  | p :: l => if p.1 = k then eraseK k l else p :: eraseK k l

/-- Go map assignment `m[k] = v`: the new binding shadows (and here
replaces) any previous binding of `k`. -/
def insertK (k : Nat) (v : α) (l : List (Nat × α)) : List (Nat × α) :=
  (k, v) :: eraseK k l

/-- Does some pair of the list carry the value `v`?  This is the loop shape
`for _, mapped := range m { if mapped == v { return true } }`. -/
def anyV (v : Nat) : List (Nat × Nat) → Bool
  | [] => false
  | p :: l => if p.2 = v then true else anyV v l

/-- Number of pairs carrying the value `v`. -/
def countV (v : Nat) : List (Nat × Nat) → Nat
  | [] => 0
  | p :: l => (if p.2 = v then 1 else 0) + countV v l

/-- Remove every pair carrying the value `v`: the loop
`for k, mapped := range m { if mapped == v { delete(m, k) } }`. -/
def eraseV (v : Nat) : List (Nat × Nat) → List (Nat × Nat)
  | [] => []
  | p :: l => if p.2 = v then eraseV v l else p :: eraseV v l

/-- Remove the first pair carrying value `v`: the loop
`for k, mapped := range m { if mapped == v { delete(m, k); break } }`. -/
def removeFirstV (v : Nat) : List (Nat × Nat) → List (Nat × Nat)
  | [] => []
  | p :: l => if p.2 = v then l else p :: removeFirstV v l

/-- The glib package-level `callbacks` record.  Keys and values are Nat
(uintptr / uint); `callbackRefCount` values are Int (Go `int`);
the retained closure values (`interface{}`) are represented by Nat tags. -/
structure CallbackState where
  refs : List (Nat × Nat)
  closures : List (Nat × Nat)
  handlerToCallback : List (Nat × Nat)
  sourceToCallback : List (Nat × Nat)
  callbackRefCount : List (Nat × Int)
deriving DecidableEq

/-- The initializer of the `callbacks` var: all five maps empty. -/
def callbacksInit : CallbackState := ⟨[], [], [], [], []⟩

/-- glib.GetCallback: `refPtr, ok := callbacks.refs[cbPtr]`. -/
def GetCallback (s : CallbackState) (cbPtr : Nat) : Option Nat :=
  lookupK cbPtr s.refs

/-- glib.SaveCallback: `callbacks.refs[cbPtr] = refPtr`. -/
def SaveCallback (s : CallbackState) (cbPtr refPtr : Nat) : CallbackState :=
  { s with refs := insertK cbPtr refPtr s.refs }

/-- glib.SaveCallbackWithClosure: stores refs and closures entries and
initializes `callbackRefCount[cbPtr] = 1` only when the token has no
stored count yet. -/
def SaveCallbackWithClosure (s : CallbackState) (cbPtr refPtr closure : Nat) :
    CallbackState :=
  { s with
    refs := insertK cbPtr refPtr s.refs
    closures := insertK cbPtr closure s.closures
    callbackRefCount :=
      match lookupK cbPtr s.callbackRefCount with
      | some _ => s.callbackRefCount
      | none => insertK cbPtr 1 s.callbackRefCount }

/-- glib.RemoveCallback: purges every handler/source mapping pointing at
`cbPtr` and deletes its refs, closures and callbackRefCount entries. -/
def RemoveCallback (s : CallbackState) (cbPtr : Nat) : CallbackState :=
  { refs := eraseK cbPtr s.refs
    closures := eraseK cbPtr s.closures
    handlerToCallback := eraseV cbPtr s.handlerToCallback
    sourceToCallback := eraseV cbPtr s.sourceToCallback
    callbackRefCount := eraseK cbPtr s.callbackRefCount }

/-- glib.acquireCallbackRef: `callbacks.callbackRefCount[cbPtr]++`
(a missing key reads as the zero value 0). -/
def acquireCallbackRef (s : CallbackState) (cbPtr : Nat) : CallbackState :=
  let c := (lookupK cbPtr s.callbackRefCount).getD 0
  { s with callbackRefCount := insertK cbPtr (c + 1) s.callbackRefCount }

/-- glib.hasCallbackMappings: linear scan of both index tables for a pair
whose value is `cbPtr`. -/
def hasCallbackMappings (s : CallbackState) (cbPtr : Nat) : Bool :=
  anyV cbPtr s.handlerToCallback || anyV cbPtr s.sourceToCallback

/-- glib.releaseCallbackRef: decrement the stored count; keep it while it
stays positive, otherwise delete the count together with the refs and
closures entries of the token.  A token without a stored count is left
untouched. -/
def releaseCallbackRef (s : CallbackState) (cbPtr : Nat) : CallbackState :=
  match lookupK cbPtr s.callbackRefCount with
  | none => s
  | some count =>
    if count - 1 > 0 then
      { s with callbackRefCount := insertK cbPtr (count - 1) s.callbackRefCount }
    else
      { s with
        callbackRefCount := eraseK cbPtr s.callbackRefCount
        refs := eraseK cbPtr s.refs
        closures := eraseK cbPtr s.closures }

/-- glib.SaveHandlerMapping.  Note the transcription keeps the source's
control flow exactly: when the handler id already maps to a different
token, `hasCallbackMappings` is consulted while the table still contains
the stale `handlerID -> prevCbPtr` entry — the entry is only overwritten
afterwards. -/
def SaveHandlerMapping (s : CallbackState) (handlerID cbPtr : Nat) :
    CallbackState :=
  if handlerID = 0 then s
  else
    match lookupK handlerID s.handlerToCallback with
    | some prevCbPtr =>
      if prevCbPtr = cbPtr then s
      else
        let s1 := releaseCallbackRef s prevCbPtr
        let s2 := if hasCallbackMappings s1 prevCbPtr then s1
                  else releaseCallbackRef s1 prevCbPtr
        acquireCallbackRef
          { s2 with handlerToCallback := insertK handlerID cbPtr s2.handlerToCallback }
          cbPtr
    | none =>
      acquireCallbackRef
        { s with handlerToCallback := insertK handlerID cbPtr s.handlerToCallback }
        cbPtr

/-- glib.RemoveCallbackByHandler: delete the table entry first, release one
reference, and release a second one when no mapping (handler or source)
still points at the token. -/
def RemoveCallbackByHandler (s : CallbackState) (handlerID : Nat) :
    CallbackState :=
  match lookupK handlerID s.handlerToCallback with
  | none => s
  | some cbPtr =>
    let s1 := { s with handlerToCallback := eraseK handlerID s.handlerToCallback }
    let s2 := releaseCallbackRef s1 cbPtr
    if hasCallbackMappings s2 cbPtr then s2 else releaseCallbackRef s2 cbPtr

/-- glib.SaveSourceMapping, the source-id twin of SaveHandlerMapping. -/
def SaveSourceMapping (s : CallbackState) (sourceID cbPtr : Nat) :
    CallbackState :=
  if sourceID = 0 then s
  else
    match lookupK sourceID s.sourceToCallback with
    | some prevCbPtr =>
      if prevCbPtr = cbPtr then s
      else
        let s1 := releaseCallbackRef s prevCbPtr
        let s2 := if hasCallbackMappings s1 prevCbPtr then s1
                  else releaseCallbackRef s1 prevCbPtr
        acquireCallbackRef
          { s2 with sourceToCallback := insertK sourceID cbPtr s2.sourceToCallback }
          cbPtr
    | none =>
      acquireCallbackRef
        { s with sourceToCallback := insertK sourceID cbPtr s.sourceToCallback }
        cbPtr

/-- glib.RemoveCallbackBySource, the source-id twin of
RemoveCallbackByHandler. -/
def RemoveCallbackBySource (s : CallbackState) (sourceID : Nat) :
    CallbackState :=
  match lookupK sourceID s.sourceToCallback with
  | none => s
  | some cbPtr =>
    let s1 := { s with sourceToCallback := eraseK sourceID s.sourceToCallback }
    let s2 := releaseCallbackRef s1 cbPtr
    if hasCallbackMappings s2 cbPtr then s2 else releaseCallbackRef s2 cbPtr

/-- gobject.Object.ConnectSignal.  `cbPtr` is the address of the Go closure
(the registry token), `cbRefPtr` the native slot address that
glib.NewCallback would allocate for a fresh registration (an oracle
argument, unused when the token is already registered), and `handlerID`
the id returned by the native g_signal_connect call (also an oracle).
The retained closure value is represented by the token itself. -/
def ConnectSignal (s : CallbackState) (cbPtr cbRefPtr handlerID : Nat) :
    CallbackState × Nat :=
  match GetCallback s cbPtr with
  | some _ => (SaveHandlerMapping s handlerID cbPtr, handlerID)
  | none =>
    (SaveHandlerMapping (SaveCallbackWithClosure s cbPtr cbRefPtr cbPtr)
      handlerID cbPtr, handlerID)

/-- gobject.Object.DisconnectSignal (after the native disconnect call). -/
def DisconnectSignal (s : CallbackState) (handlerID : Nat) : CallbackState :=
  RemoveCallbackByHandler s handlerID

/-- Number of handler plus source table entries currently mapping to the
token `t`. -/
def mcount (s : CallbackState) (t : Nat) : Nat :=
  countV t s.handlerToCallback + countV t s.sourceToCallback

/-- The registry operations exposed by the glib callbacks file, as one
alphabet of state transformations. -/
inductive RegOp where
  | SaveCallback (cbPtr refPtr : Nat)
  | SaveCallbackWithClosure (cbPtr refPtr closure : Nat)
  | RemoveCallback (cbPtr : Nat)
  | SaveHandlerMapping (handlerID cbPtr : Nat)
  | RemoveCallbackByHandler (handlerID : Nat)
  | SaveSourceMapping (sourceID cbPtr : Nat)
  | RemoveCallbackBySource (sourceID : Nat)
deriving DecidableEq

/-- Run one registry operation. -/
def applyOp (s : CallbackState) : RegOp → CallbackState
  | .SaveCallback c r => SaveCallback s c r
  | .SaveCallbackWithClosure c r cl => SaveCallbackWithClosure s c r cl
  | .RemoveCallback c => RemoveCallback s c
  | .SaveHandlerMapping h c => SaveHandlerMapping s h c
  | .RemoveCallbackByHandler h => RemoveCallbackByHandler s h
  | .SaveSourceMapping i c => SaveSourceMapping s i c
  | .RemoveCallbackBySource i => RemoveCallbackBySource s i

/-- Run a sequence of registry operations. -/
def applyOps (s : CallbackState) (ops : List RegOp) : CallbackState :=
  ops.foldl applyOp s

/-- The two mapping families: handler-id mappings and source-id mappings. -/
inductive MK where
  | h
  | s
deriving DecidableEq

/-- Save one mapping of the given family for the token `t`. -/
def applySave (t : Nat) (s : CallbackState) (m : MK × Nat) : CallbackState :=
  match m.1 with
  | .h => SaveHandlerMapping s m.2 t
  | .s => SaveSourceMapping s m.2 t

/-- Save a sequence of mappings for the token `t`. -/
def applySaves (t : Nat) (ms : List (MK × Nat)) (s : CallbackState) :
    CallbackState :=
  ms.foldl (applySave t) s

/-- Remove one mapping of the given family. -/
def applyRem (s : CallbackState) (m : MK × Nat) : CallbackState :=
  match m.1 with
  | .h => RemoveCallbackByHandler s m.2
  | .s => RemoveCallbackBySource s m.2

/-- Remove a sequence of mappings. -/
def applyRems (rs : List (MK × Nat)) (s : CallbackState) : CallbackState :=
  rs.foldl applyRem s

/-- Handler ids of a mapping sequence. -/
def hIds (ms : List (MK × Nat)) : List Nat :=
  match ms with
  | [] => []
  | (MK.h, i) :: rest => i :: hIds rest
  | (MK.s, _) :: rest => hIds rest

/-- Source ids of a mapping sequence. -/
def sIds (ms : List (MK × Nat)) : List Nat :=
  match ms with
  | [] => []
  | (MK.h, _) :: rest => sIds rest
  | (MK.s, i) :: rest => i :: sIds rest

/-- Canonical shape of the registry while the single token `t` (registered
via SaveCallbackWithClosure with ref `r` and closure `c`) is mapped by the
handler ids `hs` and the source ids `ss`: the stored reference count is
the number of live mappings plus the registration's own initial 1. -/
def regInv (t r c : Nat) (hs ss : List Nat) (s : CallbackState) : Prop :=
  s.refs = [(t, r)] ∧
  s.closures = [(t, c)] ∧
  s.handlerToCallback = hs.map (fun i => (i, t)) ∧
  s.sourceToCallback = ss.map (fun i => (i, t)) ∧
  s.callbackRefCount = [(t, (hs.length + ss.length + 1 : Int))]

/-- The literal invariant claimed by the specification: every stored
reference count equals the number of handler plus source entries mapping
to its token. -/
def refCountEqualsMappings (s : CallbackState) : Prop :=
  ∀ t c, lookupK t s.callbackRefCount = some c → c = (mcount s t : Int)

/-- The state reached by registering token 1 (ref 10, closure 20), mapping
handler id 5 to it, and then remapping handler id 5 to token 2. -/
def c2State : CallbackState :=
  SaveHandlerMapping
    (SaveHandlerMapping (SaveCallbackWithClosure callbacksInit 1 10 20) 5 1)
    5 2

/-- Keys of an association list are pairwise distinct.  Every table of the
embedding is only ever grown through `insertK`, which maintains this. -/
def keysNodup (l : List (Nat × α)) : Prop := (l.map Prod.fst).Nodup

/-- The reference-count invariant that actually holds of the code: every
stored count `c` of a token satisfies `mcount ≤ c ≤ mcount + 1` and is at
least 1, and a token without a stored count has no mappings. -/
structure RegistryInv (s : CallbackState) : Prop where
  hnd : keysNodup s.handlerToCallback
  snd : keysNodup s.sourceToCallback
  pos : ∀ t c, lookupK t s.callbackRefCount = some c → 1 ≤ c
  lower : ∀ t c, lookupK t s.callbackRefCount = some c → (mcount s t : Int) ≤ c
  upper : ∀ t c, lookupK t s.callbackRefCount = some c → c ≤ (mcount s t : Int) + 1
  zero : ∀ t, lookupK t s.callbackRefCount = none → mcount s t = 0

/-- glib.SourceFunc: `func(uintptr) bool`. -/
def SourceFunc := Nat → Bool

/-- glib.SourceOnceFunc: `func(uintptr)`. -/
def SourceOnceFunc := Nat → Unit

/-- glib.sourceEntry: a registered source callback and its repeat policy. -/
structure sourceEntry where
  fn : SourceFunc
  once : Bool

/-- The glib package-level `sourceTrampolines` record. -/
structure SourceTrampolines where
  nextID : Nat
  funcs : List (Nat × sourceEntry)
  sourceToDataID : List (Nat × Nat)

/-- The initializer of the `sourceTrampolines` var. -/
def sourceTrampolinesInit : SourceTrampolines := ⟨0, [], []⟩

/-- The native address purego.NewCallback assigns to the shared repeating
entry point in initSourceTrampoline.  The claims only depend on nil
registrations returning 0, never on this value. -/
def sourceTrampolineCb : Nat := 1

/-- The native address of the shared one-shot entry point. -/
def sourceTrampolineOnceCb : Nat := 2

/-- The repeating entry point `fn` installed by initSourceTrampoline.
Result: the new trampoline state, the closure invocation (`none` when no
closure was invoked, `some b` when the closure ran and returned `b`), and
the uintptr handed back to GLib (1 = G_SOURCE_CONTINUE, 0 =
G_SOURCE_REMOVE).  An absent dispatch id returns 0 without invoking
anything; a closure returning false has its entry and the first matching
reverse mapping deleted. -/
def sourceTrampolineFn (s : SourceTrampolines) (id : Nat) :
    SourceTrampolines × Option Bool × Nat :=
  match lookupK id s.funcs with
  | none => (s, none, 0)
  | some entry =>
    let result := entry.fn 0
    if result then (s, some result, 1)
    else
      ({ s with
          funcs := eraseK id s.funcs
          sourceToDataID := removeFirstV id s.sourceToDataID },
        some result, 0)

/-- The one-shot entry point `onceFn` installed by initSourceTrampoline:
the dispatch-table entry and its reverse mapping are deleted (under the
lock) before the closure is invoked, so the state paired with the
invocation already lacks the entry. -/
def sourceTrampolineOnceFn (s : SourceTrampolines) (id : Nat) :
    SourceTrampolines × Option Bool :=
  match lookupK id s.funcs with
  | none => (s, none)
  | some entry =>
    ({ s with
        funcs := eraseK id s.funcs
        sourceToDataID := removeFirstV id s.sourceToDataID },
      some (entry.fn 0))

/-- glib.registerSourceFunc: a nil SourceFunc registers nothing and yields
entry point 0 and user-data 0; otherwise the next monotonically increasing
dispatch id is allocated and the entry stored. -/
def registerSourceFunc (s : SourceTrampolines) (fn : Option SourceFunc)
    (once : Bool) : SourceTrampolines × Nat × Nat :=
  match fn with
  | none => (s, 0, 0)
  | some f =>
    let id := s.nextID + 1
    ({ s with nextID := id, funcs := insertK id ⟨f, once⟩ s.funcs },
      if once then sourceTrampolineOnceCb else sourceTrampolineCb, id)

/-- glib.registerSourceOnceFunc: wraps a SourceOnceFunc as a SourceFunc
that always reports stop, and registers it with once = true. -/
def registerSourceOnceFunc (s : SourceTrampolines) (fn : Option SourceOnceFunc) :
    SourceTrampolines × Nat × Nat :=
  match fn with
  | none => (s, 0, 0)
  | some f =>
    registerSourceFunc s (some (fun data => let _ := f data; false)) true

/-- glib.saveSourceTrampolineMapping: source id 0 records nothing. -/
def saveSourceTrampolineMapping (s : SourceTrampolines) (sourceID dataID : Nat) :
    SourceTrampolines :=
  if sourceID = 0 then s
  else { s with sourceToDataID := insertK sourceID dataID s.sourceToDataID }

/-- glib.removeSourceTrampolineBySourceID: resolve the source id to its
dispatch id and delete both directions. -/
def removeSourceTrampolineBySourceID (s : SourceTrampolines) (sourceID : Nat) :
    SourceTrampolines :=
  match lookupK sourceID s.sourceToDataID with
  | none => s
  | some dataID =>
    { s with
        sourceToDataID := eraseK sourceID s.sourceToDataID
        funcs := eraseK dataID s.funcs }

/-- glib.NewCallbackNullable: the reflection nil-check becomes an Option;
`cbAddr` is the slot address purego.NewCallback would allocate for a
non-nil function (an oracle argument). -/
def NewCallbackNullable (fn : Option Nat) (cbAddr : Nat) : Nat :=
  match fn with
  | none => 0
  | some _ => cbAddr


/-! Association-list lemmas. -/

theorem lookupK_eraseK_self (k : Nat) (l : List (Nat × α)) :
    lookupK k (eraseK k l) = none := by
  induction l with
  | nil => rfl
  | cons p l ih =>
    by_cases h : p.1 = k
    · simpa [eraseK, h]
    · simp [eraseK, h, lookupK, ih]

theorem lookupK_eraseK_ne {j k : Nat} (h : j ≠ k) (l : List (Nat × α)) :
    lookupK j (eraseK k l) = lookupK j l := by
  induction l with
  | nil => rfl
  | cons p l ih =>
    by_cases hk : p.1 = k
    · have hj : p.1 ≠ j := by rw [hk]; omega
      have hkj : k ≠ j := by omega
      simp [eraseK, hk, lookupK, hj, hkj, ih]
    · simp [eraseK, hk, lookupK, ih]

theorem lookupK_insertK_self (k : Nat) (v : α) (l : List (Nat × α)) :
    lookupK k (insertK k v l) = some v := by
  simp [insertK, lookupK]

theorem lookupK_insertK_ne {j k : Nat} (h : j ≠ k) (v : α) (l : List (Nat × α)) :
    lookupK j (insertK k v l) = lookupK j l := by
  have hk : k ≠ j := by omega
  simp [insertK, lookupK, hk, lookupK_eraseK_ne h]

theorem eraseK_of_lookupK_none {k : Nat} {l : List (Nat × α)}
    (h : lookupK k l = none) : eraseK k l = l := by
  induction l with
  | nil => rfl
  | cons p l ih =>
    by_cases hk : p.1 = k
    · simp [lookupK, hk] at h
    · have h' : lookupK k l = none := by simpa [lookupK, hk] using h
      simp [eraseK, hk, ih h']

theorem mem_of_lookupK_some {k : Nat} {v : α} {l : List (Nat × α)}
    (h : lookupK k l = some v) : (k, v) ∈ l := by
  induction l with
  | nil => simp [lookupK] at h
  | cons p l ih =>
    by_cases hk : p.1 = k
    · have hv : p.2 = v := by simpa [lookupK, hk] using h
      have hp : p = (k, v) := by
        cases p
        simp_all
    
      rw [hp]
      exact List.mem_cons_self _ _
    · have h' : lookupK k l = some v := by simpa [lookupK, hk] using h
      exact List.mem_cons_of_mem _ (ih h')

theorem lookupK_none_of_not_mem_keys {k : Nat} {l : List (Nat × α)}
    (h : k ∉ l.map Prod.fst) : lookupK k l = none := by
  cases he : lookupK k l with
  | none => rfl
  | some w =>
    exact absurd (List.mem_map_of_mem Prod.fst (mem_of_lookupK_some he)) h

theorem countV_pos_of_mem {k v : Nat} {l : List (Nat × Nat)}
    (h : (k, v) ∈ l) : 0 < countV v l := by
  induction l with
  | nil => simp at h
  | cons p l ih =>
    rcases List.mem_cons.mp h with h | h
    · cases h
      simp only [countV, if_true]
      omega
    · have := ih h
      by_cases hv : p.2 = v
      · simp only [countV, if_pos hv]
        omega
      · simp only [countV, if_neg hv]
        omega

theorem anyV_eq_true_iff (v : Nat) (l : List (Nat × Nat)) :
    anyV v l = true ↔ 0 < countV v l := by
  induction l with
  | nil => simp [anyV, countV]
  | cons p l ih =>
    by_cases hv : p.2 = v
    · simp [anyV, countV, hv]
    · simp [anyV, countV, hv, ih]

theorem keys_eraseK_sublist (k : Nat) (l : List (Nat × α)) :
    ((eraseK k l).map Prod.fst).Sublist (l.map Prod.fst) := by
  induction l with
  | nil => simp [eraseK]
  | cons p l ih =>
    by_cases h : p.1 = k
    · simp only [eraseK, h, if_pos, List.map_cons]
      exact ih.trans (List.sublist_cons_self _ _)
    · simp only [eraseK, h, if_neg, not_false_iff, List.map_cons]
      exact ih.cons₂ _

theorem keysNodup_eraseK {l : List (Nat × α)} (k : Nat) (h : keysNodup l) :
    keysNodup (eraseK k l) :=
  List.Nodup.sublist (keys_eraseK_sublist k l) h

theorem ne_of_mem_eraseK {k : Nat} {p : Nat × α} {l : List (Nat × α)}
    (h : p ∈ eraseK k l) : p.1 ≠ k := by
  induction l with
  | nil => simp [eraseK] at h
  | cons q l ih =>
    by_cases hq : q.1 = k
    · exact ih (by simpa [eraseK, hq] using h)
    · rcases List.mem_cons.mp (by simpa [eraseK, hq] using h) with rfl | hm
      · exact hq
      · exact ih hm

theorem not_mem_keys_eraseK (k : Nat) (l : List (Nat × α)) :
    k ∉ (eraseK k l).map Prod.fst := by
  intro hm
  obtain ⟨p, hp, hk⟩ := List.mem_map.mp hm
  exact ne_of_mem_eraseK hp hk

theorem keysNodup_insertK {l : List (Nat × α)} (k : Nat) (v : α)
    (h : keysNodup l) : keysNodup (insertK k v l) := by
  simp only [keysNodup, insertK, List.map_cons, List.nodup_cons]
  exact ⟨not_mem_keys_eraseK k l, keysNodup_eraseK k h⟩

theorem countV_eraseK_add_one {k t : Nat} {l : List (Nat × Nat)}
    (hnd : keysNodup l) (hl : lookupK k l = some t) :
    countV t (eraseK k l) + 1 = countV t l := by
  induction l with
  | nil => simp [lookupK] at hl
  | cons p l ih =>
    simp only [keysNodup, List.map_cons, List.nodup_cons] at hnd
    have hnd' : keysNodup l := hnd.2
    by_cases hk : p.1 = k
    · have ht : p.2 = t := by simpa [lookupK, hk] using hl
      have hnone : lookupK k l = none :=
        lookupK_none_of_not_mem_keys (hk ▸ hnd.1)
      simp only [eraseK, if_pos hk, eraseK_of_lookupK_none hnone, countV,
        if_pos ht]
      omega
    · have hl' : lookupK k l = some t := by simpa [lookupK, hk] using hl
      have h2 := ih hnd' hl'
      by_cases hv : p.2 = t
      · simp only [eraseK, if_neg hk, countV, if_pos hv]
        omega
      · simp only [eraseK, if_neg hk, countV, if_neg hv]
        omega

theorem countV_eraseK_of_ne {k t w : Nat} {l : List (Nat × Nat)}
    (hnd : keysNodup l) (hl : lookupK k l = some w) (hw : w ≠ t) :
    countV t (eraseK k l) = countV t l := by
  induction l with
  | nil => simp [lookupK] at hl
  | cons p l ih =>
    simp only [keysNodup, List.map_cons, List.nodup_cons] at hnd
    have hnd' : keysNodup l := hnd.2
    by_cases hk : p.1 = k
    · have hpw : p.2 = w := by simpa [lookupK, hk] using hl
      have hnone : lookupK k l = none :=
        lookupK_none_of_not_mem_keys (hk ▸ hnd.1)
      have hpt : p.2 ≠ t := by rw [hpw]; exact hw
      simp only [eraseK, if_pos hk, eraseK_of_lookupK_none hnone, countV,
        if_neg hpt]
      omega
    · have hl' : lookupK k l = some w := by simpa [lookupK, hk] using hl
      have h2 := ih hnd' hl'
      by_cases hv : p.2 = t
      · simp only [eraseK, if_neg hk, countV, if_pos hv]
        omega
      · simp only [eraseK, if_neg hk, countV, if_neg hv]
        omega

theorem countV_insertK (k v t : Nat) (l : List (Nat × Nat)) :
    countV t (insertK k v l) =
      (if v = t then 1 else 0) + countV t (eraseK k l) := by
  simp [insertK, countV]

theorem countV_eraseV_self (v : Nat) (l : List (Nat × Nat)) :
    countV v (eraseV v l) = 0 := by
  induction l with
  | nil => rfl
  | cons p l ih =>
    by_cases hv : p.2 = v
    · simpa [eraseV, hv]
    · simp [eraseV, hv, countV, ih]

theorem countV_eraseV_of_ne {t v : Nat} (h : t ≠ v) (l : List (Nat × Nat)) :
    countV t (eraseV v l) = countV t l := by
  induction l with
  | nil => rfl
  | cons p l ih =>
    by_cases hv : p.2 = v
    · have hvt : v ≠ t := by omega
      simp [eraseV, hv, countV, hvt, ih]
    · simp [eraseV, hv, countV, ih]

theorem keys_eraseV_sublist (v : Nat) (l : List (Nat × Nat)) :
    ((eraseV v l).map Prod.fst).Sublist (l.map Prod.fst) := by
  induction l with
  | nil => simp [eraseV]
  | cons p l ih =>
    by_cases h : p.2 = v
    · simp only [eraseV, h, if_pos, List.map_cons]
      exact ih.trans (List.sublist_cons_self _ _)
    · simp only [eraseV, h, if_neg, not_false_iff, List.map_cons]
      exact ih.cons₂ _

theorem keysNodup_eraseV {l : List (Nat × Nat)} (v : Nat) (h : keysNodup l) :
    keysNodup (eraseV v l) :=
  List.Nodup.sublist (keys_eraseV_sublist v l) h

/-! Defining equations and no-op lemmas for the removal operations. -/

theorem releaseCallbackRef_handlerToCallback (s : CallbackState) (p : Nat) :
    (releaseCallbackRef s p).handlerToCallback = s.handlerToCallback := by
  unfold releaseCallbackRef
  cases lookupK p s.callbackRefCount with
  | none => rfl
  | some c =>
    by_cases h : c - 1 > 0 <;> simp [h]

theorem releaseCallbackRef_sourceToCallback (s : CallbackState) (p : Nat) :
    (releaseCallbackRef s p).sourceToCallback = s.sourceToCallback := by
  unfold releaseCallbackRef
  cases lookupK p s.callbackRefCount with
  | none => rfl
  | some c =>
    by_cases h : c - 1 > 0 <;> simp [h]

theorem RemoveCallbackByHandler_of_lookupK_none {s : CallbackState} {hid : Nat}
    (h : lookupK hid s.handlerToCallback = none) :
    RemoveCallbackByHandler s hid = s := by
  unfold RemoveCallbackByHandler
  rw [h]

theorem RemoveCallbackBySource_of_lookupK_none {s : CallbackState} {sid : Nat}
    (h : lookupK sid s.sourceToCallback = none) :
    RemoveCallbackBySource s sid = s := by
  unfold RemoveCallbackBySource
  rw [h]

theorem RemoveCallbackByHandler_lookupK_self (s : CallbackState) (hid : Nat) :
    lookupK hid (RemoveCallbackByHandler s hid).handlerToCallback = none := by
  unfold RemoveCallbackByHandler
  cases he : lookupK hid s.handlerToCallback with
  | none => exact he
  | some cb =>
    simp only
    split
    · rw [releaseCallbackRef_handlerToCallback]
      exact lookupK_eraseK_self _ _
    · rw [releaseCallbackRef_handlerToCallback,
        releaseCallbackRef_handlerToCallback]
      exact lookupK_eraseK_self _ _

theorem RemoveCallbackBySource_lookupK_self (s : CallbackState) (sid : Nat) :
    lookupK sid (RemoveCallbackBySource s sid).sourceToCallback = none := by
  unfold RemoveCallbackBySource
  cases he : lookupK sid s.sourceToCallback with
  | none => exact he
  | some cb =>
    simp only
    split
    · rw [releaseCallbackRef_sourceToCallback]
      exact lookupK_eraseK_self _ _
    · rw [releaseCallbackRef_sourceToCallback,
        releaseCallbackRef_sourceToCallback]
      exact lookupK_eraseK_self _ _

/-- C6: removal through an id that is absent from its index table (in
particular an id that was already removed once) leaves the whole registry
state unchanged — no panic, no reference-count decrement — and removal is
therefore idempotent. -/
theorem removal_unknown_id_noop (s u : CallbackState) (hid sid hid2 sid2 : Nat)
    (hh : lookupK hid s.handlerToCallback = none)
    (hs : lookupK sid s.sourceToCallback = none) :
    RemoveCallbackByHandler s hid = s ∧
    RemoveCallbackBySource s sid = s ∧
    RemoveCallbackByHandler (RemoveCallbackByHandler u hid2) hid2 =
      RemoveCallbackByHandler u hid2 ∧
    RemoveCallbackBySource (RemoveCallbackBySource u sid2) sid2 =
      RemoveCallbackBySource u sid2 :=
  ⟨RemoveCallbackByHandler_of_lookupK_none hh,
   RemoveCallbackBySource_of_lookupK_none hs,
   RemoveCallbackByHandler_of_lookupK_none
     (RemoveCallbackByHandler_lookupK_self u hid2),
   RemoveCallbackBySource_of_lookupK_none
     (RemoveCallbackBySource_lookupK_self u sid2)⟩

/-- Witness for C6 at the initial registry and id 7. -/
theorem removal_unknown_id_noop_witness :
    RemoveCallbackByHandler callbacksInit 7 = callbacksInit ∧
    RemoveCallbackBySource callbacksInit 7 = callbacksInit ∧
    RemoveCallbackByHandler (RemoveCallbackByHandler callbacksInit 7) 7 =
      RemoveCallbackByHandler callbacksInit 7 ∧
    RemoveCallbackBySource (RemoveCallbackBySource callbacksInit 7) 7 =
      RemoveCallbackBySource callbacksInit 7 :=
  removal_unknown_id_noop callbacksInit callbacksInit 7 7 7 7 rfl rfl

/-- C9: a nil closure registers nothing (zero entry point, dispatch id 0,
state untouched) and mapping id 0 is a complete no-op. -/
theorem nil_closure_and_zero_id_noop (st : SourceTrampolines) (once : Bool)
    (addr : Nat) (cs : CallbackState) (p : Nat) :
    registerSourceFunc st none once = (st, 0, 0) ∧
    registerSourceOnceFunc st none = (st, 0, 0) ∧
    NewCallbackNullable none addr = 0 ∧
    SaveHandlerMapping cs 0 p = cs ∧
    SaveSourceMapping cs 0 p = cs := by
  refine ⟨rfl, rfl, rfl, ?_, ?_⟩ <;>
    simp [SaveHandlerMapping, SaveSourceMapping]

/-- C10: re-registering an already-counted token through
SaveCallbackWithClosure leaves the reference-count table untouched. -/
theorem reregistration_preserves_count (s : CallbackState) (t r c : Nat)
    (c0 : Int) (h : lookupK t s.callbackRefCount = some c0) :
    (SaveCallbackWithClosure s t r c).callbackRefCount = s.callbackRefCount ∧
    lookupK t (SaveCallbackWithClosure s t r c).callbackRefCount = some c0 := by
  unfold SaveCallbackWithClosure
  rw [h]
  exact ⟨rfl, h⟩

/-- Witness for C10: token 1 already has count 5; a second registration
keeps it at 5. -/
theorem reregistration_preserves_count_witness :
    (SaveCallbackWithClosure ⟨[], [], [], [], [(1, 5)]⟩ 1 2 3).callbackRefCount
      = [(1, 5)] ∧
    lookupK 1
      (SaveCallbackWithClosure ⟨[], [], [], [], [(1, 5)]⟩ 1 2 3).callbackRefCount
      = some 5 :=
  reregistration_preserves_count ⟨[], [], [], [], [(1, 5)]⟩ 1 2 3 5 rfl

/-- C2, evaluated on the code: register token 1 (count 1), map handler 5 to
it (count 2), then remap handler 5 to token 2.  No other mapping references
token 1, so the claim (and the spec) demand its eviction; the code instead
leaves it in refs and closures with count 1, because hasCallbackMappings is
consulted while the stale entry handler 5 -> token 1 is still in the table,
so the second releaseCallbackRef of the save path can never run. -/
theorem save_overwrite_leaks_old_token :
    lookupK 1 c2State.refs = some 10 ∧
    lookupK 1 c2State.closures = some 20 ∧
    lookupK 1 c2State.callbackRefCount = some 1 ∧
    mcount c2State 1 = 0 := by
  decide

/-- C3, refuted as literally stated: after SaveCallbackWithClosure (which
stores count 1 with no mapping yet) plus one handler mapping, the stored
count is 2 while only one table entry maps to the token. -/
theorem refcount_not_equal_mappings :
    ¬ refCountEqualsMappings
        (applyOps callbacksInit
          [RegOp.SaveCallbackWithClosure 1 10 20,
           RegOp.SaveHandlerMapping 5 1]) := by
  intro h
  have h2 := h 1 2 (by decide)
  revert h2
  decide

/-! Trampoline dispatch equations. -/

theorem sourceTrampolineOnceFn_some {s : SourceTrampolines} {id : Nat}
    {e : sourceEntry} (hl : lookupK id s.funcs = some e) :
    sourceTrampolineOnceFn s id =
      ({ s with
          funcs := eraseK id s.funcs
          sourceToDataID := removeFirstV id s.sourceToDataID },
        some (e.fn 0)) := by
  unfold sourceTrampolineOnceFn
  rw [hl]

theorem sourceTrampolineOnceFn_none {s : SourceTrampolines} {id : Nat}
    (hl : lookupK id s.funcs = none) :
    sourceTrampolineOnceFn s id = (s, none) := by
  unfold sourceTrampolineOnceFn
  rw [hl]

theorem sourceTrampolineFn_none {s : SourceTrampolines} {id : Nat}
    (hl : lookupK id s.funcs = none) :
    sourceTrampolineFn s id = (s, none, 0) := by
  unfold sourceTrampolineFn
  rw [hl]

theorem removeSourceTrampolineBySourceID_some {s : SourceTrampolines}
    {sid did : Nat} (hl : lookupK sid s.sourceToDataID = some did) :
    removeSourceTrampolineBySourceID s sid =
      { s with
          sourceToDataID := eraseK sid s.sourceToDataID
          funcs := eraseK did s.funcs } := by
  unfold removeSourceTrampolineBySourceID
  rw [hl]

theorem ne_of_countV_zero {v : Nat} {l : List (Nat × Nat)}
    (h : countV v l = 0) : ∀ p ∈ l, p.2 ≠ v := by
  induction l with
  | nil => simp
  | cons q l ih =>
    by_cases hq : q.2 = v
    · simp [countV, hq] at h
    · intro p hp
      rcases List.mem_cons.mp hp with rfl | hm
      · exact hq
      · exact ih (by simpa [countV, hq] using h) p hm

theorem removeFirstV_all_ne {v : Nat} {l : List (Nat × Nat)}
    (h : countV v l ≤ 1) : ∀ p ∈ removeFirstV v l, p.2 ≠ v := by
  induction l with
  | nil => simp [removeFirstV]
  | cons q l ih =>
    by_cases hq : q.2 = v
    · have h0 : countV v l = 0 := by
        simp only [countV, if_pos hq] at h
        omega
      simp only [removeFirstV, if_pos hq]
      exact ne_of_countV_zero h0
    · have h' : countV v l ≤ 1 := by simpa [countV, hq] using h
      simp only [removeFirstV, if_neg hq]
      intro p hp
      rcases List.mem_cons.mp hp with rfl | hm
      · exact hq
      · exact ih h' p hm

/-- C4: dispatching a registered once-entry through the shared one-shot
entry point yields exactly one closure invocation, the state paired with
that invocation already lacks the dispatch-table entry and every reverse
source-id mapping for it, and a second dispatch with the same id is a
no-op (no invocation, no state change). -/
theorem once_dispatch_at_most_once (s : SourceTrampolines) (id : Nat)
    (e : sourceEntry) (hl : lookupK id s.funcs = some e)
    (_honce : e.once = true) (hrev : countV id s.sourceToDataID ≤ 1) :
    (sourceTrampolineOnceFn s id).2 = some (e.fn 0) ∧
    lookupK id (sourceTrampolineOnceFn s id).1.funcs = none ∧
    (∀ p ∈ (sourceTrampolineOnceFn s id).1.sourceToDataID, p.2 ≠ id) ∧
    sourceTrampolineOnceFn (sourceTrampolineOnceFn s id).1 id =
      ((sourceTrampolineOnceFn s id).1, none) := by
  rw [sourceTrampolineOnceFn_some hl]
  refine ⟨rfl, lookupK_eraseK_self _ _, removeFirstV_all_ne hrev, ?_⟩
  exact sourceTrampolineOnceFn_none (lookupK_eraseK_self _ _)

/-- Witness for C4: one once-entry under dispatch id 1, reverse-mapped from
source id 9. -/
theorem once_dispatch_at_most_once_witness :
    (sourceTrampolineOnceFn ⟨1, [(1, ⟨fun _ => true, true⟩)], [(9, 1)]⟩ 1).2 =
      some true ∧
    lookupK 1
      (sourceTrampolineOnceFn ⟨1, [(1, ⟨fun _ => true, true⟩)], [(9, 1)]⟩ 1).1.funcs
      = none ∧
    (∀ p ∈ (sourceTrampolineOnceFn
        ⟨1, [(1, ⟨fun _ => true, true⟩)], [(9, 1)]⟩ 1).1.sourceToDataID,
      p.2 ≠ 1) ∧
    sourceTrampolineOnceFn
        (sourceTrampolineOnceFn ⟨1, [(1, ⟨fun _ => true, true⟩)], [(9, 1)]⟩ 1).1 1 =
      ((sourceTrampolineOnceFn ⟨1, [(1, ⟨fun _ => true, true⟩)], [(9, 1)]⟩ 1).1,
        none) :=
  once_dispatch_at_most_once ⟨1, [(1, ⟨fun _ => true, true⟩)], [(9, 1)]⟩ 1
    ⟨fun _ => true, true⟩ rfl rfl (by decide)

/-- C5: after removeSourceTrampolineBySourceID resolves a source id, the
repeating entry point invoked with the purged dispatch id finds no entry,
invokes nothing and returns 0; dispatching any absent id is always such a
no-op and never invokes a closure. -/
theorem removed_source_dispatch_noop (s : SourceTrampolines) (sid did : Nat)
    (hl : lookupK sid s.sourceToDataID = some did) :
    sourceTrampolineFn (removeSourceTrampolineBySourceID s sid) did =
      (removeSourceTrampolineBySourceID s sid, none, 0) ∧
    (∀ (u : SourceTrampolines) (i : Nat), lookupK i u.funcs = none →
      sourceTrampolineFn u i = (u, none, 0)) := by
  constructor
  · apply sourceTrampolineFn_none
    rw [removeSourceTrampolineBySourceID_some hl]
    exact lookupK_eraseK_self _ _
  · intro u i h
    exact sourceTrampolineFn_none h

/-- Witness for C5: source id 9 mapped to dispatch id 1 whose repeating
entry is registered, then removed before firing. -/
theorem removed_source_dispatch_noop_witness :
    sourceTrampolineFn
        (removeSourceTrampolineBySourceID
          ⟨1, [(1, ⟨fun _ => true, false⟩)], [(9, 1)]⟩ 9) 1 =
      (removeSourceTrampolineBySourceID
          ⟨1, [(1, ⟨fun _ => true, false⟩)], [(9, 1)]⟩ 9, none, 0) ∧
    (∀ (u : SourceTrampolines) (i : Nat), lookupK i u.funcs = none →
      sourceTrampolineFn u i = (u, none, 0)) :=
  removed_source_dispatch_noop ⟨1, [(1, ⟨fun _ => true, false⟩)], [(9, 1)]⟩ 9 1
    rfl

/-! Map-of-ids lemmas: tables whose entries all carry the same token. -/

theorem lookupK_map_ids_of_not_mem {t : Nat} {hs : List Nat} {id : Nat}
    (h : id ∉ hs) : lookupK id (hs.map fun i => (i, t)) = none := by
  induction hs with
  | nil => rfl
  | cons a hs ih =>
    have ha : a ≠ id := fun e => h (e ▸ List.mem_cons_self a hs)
    have hm : id ∉ hs := fun hm => h (List.mem_cons_of_mem _ hm)
    simp [lookupK, ha, ih hm]

theorem lookupK_map_ids_of_mem {t : Nat} {hs : List Nat} {id : Nat}
    (h : id ∈ hs) : lookupK id (hs.map fun i => (i, t)) = some t := by
  induction hs with
  | nil => simp at h
  | cons a hs ih =>
    by_cases ha : a = id
    · simp [lookupK, ha]
    · rcases List.mem_cons.mp h with rfl | hm
      · exact absurd rfl ha
      · simp [lookupK, ha, ih hm]

theorem eraseK_map_ids (k t : Nat) (hs : List Nat) :
    eraseK k (hs.map fun i => (i, t)) =
      (hs.filter fun i => i != k).map (fun i => (i, t)) := by
  induction hs with
  | nil => rfl
  | cons a hs ih =>
    by_cases ha : a = k
    · simp [eraseK, ha, List.filter_cons, ih]
    · simp [eraseK, ha, List.filter_cons, ih]

theorem eraseK_map_ids_nodup {k t : Nat} {hs : List Nat} (hnd : hs.Nodup) :
    eraseK k (hs.map fun i => (i, t)) = (hs.erase k).map (fun i => (i, t)) := by
  rw [eraseK_map_ids, List.Nodup.erase_eq_filter hnd]

theorem anyV_map_ids (t : Nat) (hs : List Nat) :
    anyV t (hs.map fun i => (i, t)) = !hs.isEmpty := by
  cases hs <;> simp [anyV]

/-! Single-step lemmas for the canonical single-token registry shape. -/

theorem SaveHandlerMapping_fresh {s : CallbackState} {id t : Nat}
    (hid : id ≠ 0) (hl : lookupK id s.handlerToCallback = none) :
    SaveHandlerMapping s id t =
      acquireCallbackRef
        { s with handlerToCallback := insertK id t s.handlerToCallback } t := by
  unfold SaveHandlerMapping
  rw [if_neg hid, hl]

theorem SaveSourceMapping_fresh {s : CallbackState} {id t : Nat}
    (hid : id ≠ 0) (hl : lookupK id s.sourceToCallback = none) :
    SaveSourceMapping s id t =
      acquireCallbackRef
        { s with sourceToCallback := insertK id t s.sourceToCallback } t := by
  unfold SaveSourceMapping
  rw [if_neg hid, hl]

theorem SaveHandlerMapping_regInv {t r c : Nat} {hs ss : List Nat}
    {s : CallbackState} (hQ : regInv t r c hs ss s) {id : Nat}
    (hid : id ≠ 0) (hmem : id ∉ hs) :
    regInv t r c (id :: hs) ss (SaveHandlerMapping s id t) := by
  unfold regInv at hQ ⊢
  obtain ⟨refs, clos, h2c, s2c, cnt⟩ := s
  simp only at hQ
  obtain ⟨e1, e2, e3, e4, e5⟩ := hQ
  subst e1
  subst e2
  subst e3
  subst e4
  subst e5
  have hl : lookupK id ((hs.map fun i => (i, t))) = none :=
    lookupK_map_ids_of_not_mem hmem
  rw [SaveHandlerMapping_fresh hid hl]
  unfold acquireCallbackRef
  refine ⟨rfl, rfl, ?_, rfl, ?_⟩
  · simp only [insertK, eraseK_of_lookupK_none hl, List.map_cons]
  · simp only [lookupK, insertK, eraseK, if_pos rfl, Option.getD_some,
      List.length_cons]
    simp only [Option.getD]
    push_cast
    ring_nf

theorem SaveSourceMapping_regInv {t r c : Nat} {hs ss : List Nat}
    {s : CallbackState} (hQ : regInv t r c hs ss s) {id : Nat}
    (hid : id ≠ 0) (hmem : id ∉ ss) :
    regInv t r c hs (id :: ss) (SaveSourceMapping s id t) := by
  unfold regInv at hQ ⊢
  obtain ⟨refs, clos, h2c, s2c, cnt⟩ := s
  simp only at hQ
  obtain ⟨e1, e2, e3, e4, e5⟩ := hQ
  subst e1
  subst e2
  subst e3
  subst e4
  subst e5
  have hl : lookupK id ((ss.map fun i => (i, t))) = none :=
    lookupK_map_ids_of_not_mem hmem
  rw [SaveSourceMapping_fresh hid hl]
  unfold acquireCallbackRef
  refine ⟨rfl, rfl, rfl, ?_, ?_⟩
  · simp only [insertK, eraseK_of_lookupK_none hl, List.map_cons]
  · simp only [lookupK, insertK, eraseK, if_pos rfl, Option.getD_some,
      List.length_cons]
    simp only [Option.getD]
    push_cast
    ring_nf


theorem RemoveCallbackByHandler_found {s : CallbackState} {id cb : Nat}
    (hl : lookupK id s.handlerToCallback = some cb) :
    RemoveCallbackByHandler s id =
      (if hasCallbackMappings (releaseCallbackRef
            { s with handlerToCallback := eraseK id s.handlerToCallback } cb) cb
       then releaseCallbackRef
            { s with handlerToCallback := eraseK id s.handlerToCallback } cb
       else releaseCallbackRef (releaseCallbackRef
            { s with handlerToCallback := eraseK id s.handlerToCallback } cb)
            cb) := by
  unfold RemoveCallbackByHandler
  rw [hl]

theorem RemoveCallbackBySource_found {s : CallbackState} {id cb : Nat}
    (hl : lookupK id s.sourceToCallback = some cb) :
    RemoveCallbackBySource s id =
      (if hasCallbackMappings (releaseCallbackRef
            { s with sourceToCallback := eraseK id s.sourceToCallback } cb) cb
       then releaseCallbackRef
            { s with sourceToCallback := eraseK id s.sourceToCallback } cb
       else releaseCallbackRef (releaseCallbackRef
            { s with sourceToCallback := eraseK id s.sourceToCallback } cb)
            cb) := by
  unfold RemoveCallbackBySource
  rw [hl]

theorem releaseCallbackRef_found_pos {s : CallbackState} {p : Nat} {cp : Int}
    (hl : lookupK p s.callbackRefCount = some cp) (hpos : cp - 1 > 0) :
    releaseCallbackRef s p =
      { s with callbackRefCount := insertK p (cp - 1) s.callbackRefCount } := by
  unfold releaseCallbackRef
  rw [hl]
  exact if_pos hpos

theorem releaseCallbackRef_found_zero {s : CallbackState} {p : Nat} {cp : Int}
    (hl : lookupK p s.callbackRefCount = some cp) (hpos : ¬cp - 1 > 0) :
    releaseCallbackRef s p =
      { s with
        callbackRefCount := eraseK p s.callbackRefCount
        refs := eraseK p s.refs
        closures := eraseK p s.closures } := by
  unfold releaseCallbackRef
  rw [hl]
  exact if_neg hpos

theorem releaseCallbackRef_none {s : CallbackState} {p : Nat}
    (hl : lookupK p s.callbackRefCount = none) : releaseCallbackRef s p = s := by
  unfold releaseCallbackRef
  rw [hl]

theorem RemoveCallbackByHandler_regInv_keep {t r c : Nat} {hs ss : List Nat}
    {s : CallbackState} (hQ : regInv t r c hs ss s) {id : Nat}
    (hnd : hs.Nodup) (hmem : id ∈ hs) (hrest : 2 ≤ hs.length + ss.length) :
    regInv t r c (hs.erase id) ss (RemoveCallbackByHandler s id) := by
  unfold regInv at hQ
  obtain ⟨e1, e2, e3, e4, e5⟩ := hQ
  have hl : lookupK id s.handlerToCallback = some t := by
    rw [e3]
    exact lookupK_map_ids_of_mem hmem
  have hle : (hs.erase id).length = hs.length - 1 := List.length_erase_of_mem hmem
  have h1 : 0 < hs.length := List.length_pos.mpr (List.ne_nil_of_mem hmem)
  rw [RemoveCallbackByHandler_found hl]
  have hc1 : lookupK t
      ({ s with handlerToCallback := eraseK id s.handlerToCallback }
        : CallbackState).callbackRefCount =
      some ((hs.length : Int) + ss.length + 1) := by
    show lookupK t s.callbackRefCount = _
    rw [e5]
    simp [lookupK]
  have hpos : ((hs.length : Int) + ss.length + 1) - 1 > 0 := by omega
  rw [releaseCallbackRef_found_pos hc1 hpos]
  split
  · unfold regInv
    refine ⟨?_, ?_, ?_, ?_, ?_⟩
    · show s.refs = _
      rw [e1]
    · show s.closures = _
      rw [e2]
    · show eraseK id s.handlerToCallback = _
      rw [e3]
      exact eraseK_map_ids_nodup hnd
    · show s.sourceToCallback = _
      rw [e4]
    · show insertK t ((hs.length : Int) + ss.length + 1 - 1) s.callbackRefCount = _
      rw [e5]
      simp only [insertK, eraseK, lookupK, List.cons.injEq, Prod.mk.injEq,
        if_pos rfl, and_true]
      refine ⟨⟨trivial, ?_⟩, rfl⟩
      omega
  · next hfalse =>
    exfalso
    apply hfalse
    show (anyV t (eraseK id s.handlerToCallback) || anyV t s.sourceToCallback)
      = true
    rw [e3, e4, eraseK_map_ids_nodup hnd, anyV_map_ids, anyV_map_ids]
    cases he : hs.erase id with
    | nil =>
      have h0 : hs.length - 1 = 0 := by
        rw [← hle, he]
        rfl
      cases hss : ss with
      | nil =>
        rw [hss] at hrest
        simp at hrest
        omega
      | cons b B => simp
    | cons a A => simp

theorem RemoveCallbackBySource_regInv_keep {t r c : Nat} {hs ss : List Nat}
    {s : CallbackState} (hQ : regInv t r c hs ss s) {id : Nat}
    (hnd : ss.Nodup) (hmem : id ∈ ss) (hrest : 2 ≤ hs.length + ss.length) :
    regInv t r c hs (ss.erase id) (RemoveCallbackBySource s id) := by
  unfold regInv at hQ
  obtain ⟨e1, e2, e3, e4, e5⟩ := hQ
  have hl : lookupK id s.sourceToCallback = some t := by
    rw [e4]
    exact lookupK_map_ids_of_mem hmem
  have hle : (ss.erase id).length = ss.length - 1 := List.length_erase_of_mem hmem
  have h1 : 0 < ss.length := List.length_pos.mpr (List.ne_nil_of_mem hmem)
  rw [RemoveCallbackBySource_found hl]
  have hc1 : lookupK t
      ({ s with sourceToCallback := eraseK id s.sourceToCallback }
        : CallbackState).callbackRefCount =
      some ((hs.length : Int) + ss.length + 1) := by
    show lookupK t s.callbackRefCount = _
    rw [e5]
    simp [lookupK]
  have hpos : ((hs.length : Int) + ss.length + 1) - 1 > 0 := by omega
  rw [releaseCallbackRef_found_pos hc1 hpos]
  split
  · unfold regInv
    refine ⟨?_, ?_, ?_, ?_, ?_⟩
    · show s.refs = _
      rw [e1]
    · show s.closures = _
      rw [e2]
    · show s.handlerToCallback = _
      rw [e3]
    · show eraseK id s.sourceToCallback = _
      rw [e4]
      exact eraseK_map_ids_nodup hnd
    · show insertK t ((hs.length : Int) + ss.length + 1 - 1) s.callbackRefCount = _
      rw [e5]
      simp only [insertK, eraseK, lookupK, List.cons.injEq, Prod.mk.injEq,
        if_pos rfl, and_true]
      refine ⟨⟨trivial, ?_⟩, rfl⟩
      omega
  · next hfalse =>
    exfalso
    apply hfalse
    show (anyV t s.handlerToCallback || anyV t (eraseK id s.sourceToCallback))
      = true
    rw [e3, e4, eraseK_map_ids_nodup hnd, anyV_map_ids, anyV_map_ids]
    cases hhs : hs with
    | nil =>
      have h0 : hs.length = 0 := by
        rw [hhs]
        rfl
      cases he : ss.erase id with
      | nil =>
        have h2 : ss.length - 1 = 0 := by
          rw [← hle, he]
          rfl
        omega
      | cons b B => simp
    | cons a A => simp

theorem RemoveCallbackByHandler_regInv_last {t r c id : Nat} {s : CallbackState}
    (hQ : regInv t r c [id] [] s) :
    RemoveCallbackByHandler s id = callbacksInit := by
  unfold regInv at hQ
  obtain ⟨e1, e2, e3, e4, e5⟩ := hQ
  obtain ⟨refs, clos, h2c, s2c, cnt⟩ := s
  simp only at e1 e2 e3 e4 e5
  subst e1
  subst e2
  subst e3
  subst e4
  subst e5
  norm_num [RemoveCallbackByHandler, releaseCallbackRef, hasCallbackMappings,
    anyV, lookupK, eraseK, insertK, callbacksInit]

theorem RemoveCallbackBySource_regInv_last {t r c id : Nat} {s : CallbackState}
    (hQ : regInv t r c [] [id] s) :
    RemoveCallbackBySource s id = callbacksInit := by
  unfold regInv at hQ
  obtain ⟨e1, e2, e3, e4, e5⟩ := hQ
  obtain ⟨refs, clos, h2c, s2c, cnt⟩ := s
  simp only at e1 e2 e3 e4 e5
  subst e1
  subst e2
  subst e3
  subst e4
  subst e5
  norm_num [RemoveCallbackBySource, releaseCallbackRef, hasCallbackMappings,
    anyV, lookupK, eraseK, insertK, callbacksInit]


theorem SaveCallbackWithClosure_init_regInv (t r c : Nat) :
    regInv t r c [] [] (SaveCallbackWithClosure callbacksInit t r c) := by
  unfold regInv SaveCallbackWithClosure callbacksInit
  norm_num [insertK, eraseK, lookupK]

theorem hIds_length_add (ms : List (MK × Nat)) :
    (hIds ms).length + (sIds ms).length = ms.length := by
  induction ms with
  | nil => rfl
  | cons m rest ih =>
    obtain ⟨k, id⟩ := m
    cases k with
    | h =>
      simp only [hIds, sIds, List.length_cons]
      omega
    | s =>
      simp only [hIds, sIds, List.length_cons]
      omega

theorem hIds_sIds_nil {rs : List (MK × Nat)} (hh : hIds rs = [])
    (hs : sIds rs = []) : rs = [] := by
  cases rs with
  | nil => rfl
  | cons m rest =>
    obtain ⟨k, id⟩ := m
    cases k with
    | h => simp [hIds] at hh
    | s => simp [sIds] at hs

theorem applySaves_regInv {t r c : Nat} (ms : List (MK × Nat)) :
    ∀ (hs ss : List Nat) (s : CallbackState),
      regInv t r c hs ss s →
      (hs ++ hIds ms).Nodup → (ss ++ sIds ms).Nodup →
      (∀ m ∈ ms, m.2 ≠ 0) →
      ∃ hs' ss', hs'.Perm (hs ++ hIds ms) ∧ ss'.Perm (ss ++ sIds ms) ∧
        regInv t r c hs' ss' (applySaves t ms s) := by
  induction ms with
  | nil =>
    intro hs ss s hQ _ _ _
    exact ⟨hs, ss, by simp [hIds], by simp [sIds], hQ⟩
  | cons m rest ih =>
    intro hs ss s hQ hhnd hsnd h0
    obtain ⟨k, id⟩ := m
    have hid : id ≠ 0 := h0 (k, id) (List.mem_cons_self _ _)
    have h0' : ∀ m ∈ rest, m.2 ≠ 0 := fun m hm => h0 m (List.mem_cons_of_mem _ hm)
    cases k with
    | h =>
      have hhnd' : (hs ++ id :: hIds rest).Nodup := hhnd
      have hperm : (hs ++ id :: hIds rest).Perm (id :: (hs ++ hIds rest)) :=
        List.perm_middle
      have hhnd2 : (id :: (hs ++ hIds rest)).Nodup := hperm.nodup hhnd'
      have hidmem : id ∉ hs := by
        have hni := (List.nodup_cons.mp hhnd2).1
        intro hm
        exact hni (List.mem_append.mpr (Or.inl hm))
      have hQ2 := SaveHandlerMapping_regInv hQ hid hidmem
      have hhnd3 : ((id :: hs) ++ hIds rest).Nodup := by
        simpa using hhnd2
      obtain ⟨hs', ss', p1, p2, hQ3⟩ :=
        ih (id :: hs) ss _ hQ2 hhnd3 hsnd h0'
      refine ⟨hs', ss', ?_, p2, hQ3⟩
      exact p1.trans List.perm_middle.symm
    | s =>
      have hsnd' : (ss ++ id :: sIds rest).Nodup := hsnd
      have hperm : (ss ++ id :: sIds rest).Perm (id :: (ss ++ sIds rest)) :=
        List.perm_middle
      have hsnd2 : (id :: (ss ++ sIds rest)).Nodup := hperm.nodup hsnd'
      have hidmem : id ∉ ss := by
        have hni := (List.nodup_cons.mp hsnd2).1
        intro hm
        exact hni (List.mem_append.mpr (Or.inl hm))
      have hQ2 := SaveSourceMapping_regInv hQ hid hidmem
      have hsnd3 : ((id :: ss) ++ sIds rest).Nodup := by
        simpa using hsnd2
      obtain ⟨hs', ss', p1, p2, hQ3⟩ :=
        ih hs (id :: ss) _ hQ2 hhnd hsnd3 h0'
      refine ⟨hs', ss', p1, ?_, hQ3⟩
      exact p2.trans List.perm_middle.symm

theorem applyRems_regInv {t r c : Nat} (rs : List (MK × Nat)) :
    ∀ (hs ss : List Nat) (s : CallbackState),
      regInv t r c hs ss s → hs.Nodup → ss.Nodup →
      (hIds rs).Perm hs → (sIds rs).Perm ss →
      1 ≤ hs.length + ss.length →
      applyRems rs s = callbacksInit := by
  induction rs with
  | nil =>
    intro hs ss s _ _ _ ph ps hlen
    have hhs : hs = [] := by
      have : List.Perm [] hs := ph
      simpa using (List.perm_nil.mp this.symm)
    have hss : ss = [] := by
      have : List.Perm [] ss := ps
      simpa using (List.perm_nil.mp this.symm)
    rw [hhs, hss] at hlen
    simp at hlen
  | cons m rest ih =>
    intro hs ss s hQ hhnd hsnd ph ps hlen
    obtain ⟨k, id⟩ := m
    cases k with
    | h =>
      have hph : (id :: hIds rest).Perm hs := ph
      have hmem := List.cons_perm_iff_perm_erase.mp hph
      have h1 : 0 < hs.length := List.length_pos.mpr (List.ne_nil_of_mem hmem.1)
      have hle : (hs.erase id).length = hs.length - 1 :=
        List.length_erase_of_mem hmem.1
      by_cases hbig : 2 ≤ hs.length + ss.length
      · have hQ2 := RemoveCallbackByHandler_regInv_keep hQ hhnd hmem.1 hbig
        have happ : applyRems ((MK.h, id) :: rest) s =
            applyRems rest (RemoveCallbackByHandler s id) := rfl
        rw [happ]
        exact ih (hs.erase id) ss _ hQ2 (List.Nodup.erase id hhnd) hsnd
          hmem.2 ps (by omega)
      · have hlen1 : hs.length = 1 := by omega
        have hss : ss = [] := by
          have : ss.length = 0 := by omega
          exact List.length_eq_zero.mp this
        obtain ⟨a, ha⟩ := List.length_eq_one.mp hlen1
        have haid : a = id := by
          rw [ha] at hmem
          exact (List.mem_singleton.mp hmem.1).symm
        have hhs : hs = [id] := by rw [ha, haid]
        rw [hhs, hss] at hQ
        have hlast := RemoveCallbackByHandler_regInv_last hQ
        have hresth : hIds rest = [] := by
          have h2 := hmem.2
          rw [hhs] at h2
          simpa using h2
        have hrests : sIds rest = [] := by
          have h2 : (sIds rest).Perm [] := hss ▸ ps
          simpa using h2
        rw [hIds_sIds_nil hresth hrests]
        have happ : applyRems ((MK.h, id) :: []) s =
            applyRems [] (RemoveCallbackByHandler s id) := rfl
        rw [happ]
        simpa [applyRems] using hlast
    | s =>
      have hps : (id :: sIds rest).Perm ss := ps
      have hmem := List.cons_perm_iff_perm_erase.mp hps
      have h1 : 0 < ss.length := List.length_pos.mpr (List.ne_nil_of_mem hmem.1)
      have hle : (ss.erase id).length = ss.length - 1 :=
        List.length_erase_of_mem hmem.1
      by_cases hbig : 2 ≤ hs.length + ss.length
      · have hQ2 := RemoveCallbackBySource_regInv_keep hQ hsnd hmem.1 hbig
        have happ : applyRems ((MK.s, id) :: rest) s =
            applyRems rest (RemoveCallbackBySource s id) := rfl
        rw [happ]
        exact ih hs (ss.erase id) _ hQ2 hhnd (List.Nodup.erase id hsnd)
          ph hmem.2 (by omega)
      · have hlen1 : ss.length = 1 := by omega
        have hhs : hs = [] := by
          have : hs.length = 0 := by omega
          exact List.length_eq_zero.mp this
        obtain ⟨a, ha⟩ := List.length_eq_one.mp hlen1
        have haid : a = id := by
          rw [ha] at hmem
          exact (List.mem_singleton.mp hmem.1).symm
        have hss : ss = [id] := by rw [ha, haid]
        rw [hhs, hss] at hQ
        have hlast := RemoveCallbackBySource_regInv_last hQ
        have hresth : hIds rest = [] := by
          have h2 : (hIds rest).Perm [] := hhs ▸ ph
          simpa using h2
        have hrests : sIds rest = [] := by
          have h2 := hmem.2
          rw [hss] at h2
          simpa using h2
        rw [hIds_sIds_nil hresth hrests]
        have happ : applyRems ((MK.s, id) :: []) s =
            applyRems [] (RemoveCallbackBySource s id) := rfl
        rw [happ]
        simpa [applyRems] using hlast

/-- C1: register a token via SaveCallbackWithClosure, save any family of
handler/source mappings for it (distinct nonzero ids per family; re-saving
an existing id to the same token is a no-op in the code, so distinctness
loses no generality), then perform the matching removals in any order.
The token ends with no stored reference count and is gone from refs and
closures — in fact the registry returns to its initial state. -/
theorem refcount_symmetry (t r c : Nat) (ms rs : List (MK × Nat))
    (hne : ms ≠ [])
    (h0 : ∀ m ∈ ms, m.2 ≠ 0)
    (hhnd : (hIds ms).Nodup) (hsnd : (sIds ms).Nodup)
    (hph : (hIds rs).Perm (hIds ms)) (hps : (sIds rs).Perm (sIds ms)) :
    lookupK t (applyRems rs (applySaves t ms
      (SaveCallbackWithClosure callbacksInit t r c))).callbackRefCount
        = none ∧
    lookupK t (applyRems rs (applySaves t ms
      (SaveCallbackWithClosure callbacksInit t r c))).refs = none ∧
    lookupK t (applyRems rs (applySaves t ms
      (SaveCallbackWithClosure callbacksInit t r c))).closures = none := by
  obtain ⟨hs', ss', p1, p2, hQ⟩ :=
    applySaves_regInv ms [] [] _ (SaveCallbackWithClosure_init_regInv t r c)
      (by simpa using hhnd) (by simpa using hsnd) h0
  have hp1 : hs'.Perm (hIds ms) := p1
  have hp2 : ss'.Perm (sIds ms) := p2
  have hnd1 : hs'.Nodup := hp1.symm.nodup hhnd
  have hnd2 : ss'.Nodup := hp2.symm.nodup hsnd
  have hlen : 1 ≤ hs'.length + ss'.length := by
    have l1 := hp1.length_eq
    have l2 := hp2.length_eq
    have l3 := hIds_length_add ms
    have l4 : 0 < ms.length := List.length_pos.mpr hne
    omega
  have hres := applyRems_regInv rs hs' ss' _ hQ hnd1 hnd2
    (hph.trans hp1.symm) (hps.trans hp2.symm) hlen
  rw [hres]
  exact ⟨rfl, rfl, rfl⟩

/-- Witness for C1: one handler mapping saved and removed. -/
theorem refcount_symmetry_witness :
    lookupK 1 (applyRems [(MK.h, 5)] (applySaves 1 [(MK.h, 5)]
      (SaveCallbackWithClosure callbacksInit 1 2 3))).callbackRefCount
        = none ∧
    lookupK 1 (applyRems [(MK.h, 5)] (applySaves 1 [(MK.h, 5)]
      (SaveCallbackWithClosure callbacksInit 1 2 3))).refs = none ∧
    lookupK 1 (applyRems [(MK.h, 5)] (applySaves 1 [(MK.h, 5)]
      (SaveCallbackWithClosure callbacksInit 1 2 3))).closures = none :=
  refcount_symmetry 1 2 3 [(MK.h, 5)] [(MK.h, 5)] (by decide) (by decide)
    (by decide) (by decide) (List.Perm.refl _) (List.Perm.refl _)


theorem ConnectSignal_snd (s : CallbackState) (cb ref h : Nat) :
    (ConnectSignal s cb ref h).2 = h := by
  cases he : GetCallback s cb <;> simp [ConnectSignal, he]

/-- C7: connecting the same closure token to two different signals (two
nonzero native handler ids) registers one native slot at the first connect
and reuses it at the second: both connects return their own handler id,
the registry resolves the token to the same slot address after each, and
both handler ids map to the token. -/
theorem slot_reuse (t slot slot2 h1 h2 : Nat)
    (h1ne : h1 ≠ 0) (h2ne : h2 ≠ 0) (hne : h1 ≠ h2) :
    (ConnectSignal callbacksInit t slot h1).2 = h1 ∧
    (ConnectSignal (ConnectSignal callbacksInit t slot h1).1 t slot2 h2).2
      = h2 ∧
    GetCallback (ConnectSignal callbacksInit t slot h1).1 t = some slot ∧
    GetCallback
      (ConnectSignal (ConnectSignal callbacksInit t slot h1).1 t slot2 h2).1 t
      = some slot ∧
    lookupK h1 (ConnectSignal (ConnectSignal callbacksInit t slot h1).1 t
      slot2 h2).1.handlerToCallback = some t ∧
    lookupK h2 (ConnectSignal (ConnectSignal callbacksInit t slot h1).1 t
      slot2 h2).1.handlerToCallback = some t := by
  have e0 : GetCallback callbacksInit t = none := rfl
  have e1 : ConnectSignal callbacksInit t slot h1 =
      (SaveHandlerMapping (SaveCallbackWithClosure callbacksInit t slot t)
        h1 t, h1) := by
    unfold ConnectSignal
    rw [e0]
  have hQ1 : regInv t slot t [h1] []
      (SaveHandlerMapping (SaveCallbackWithClosure callbacksInit t slot t)
        h1 t) :=
    SaveHandlerMapping_regInv (SaveCallbackWithClosure_init_regInv t slot t)
      h1ne (by simp)
  unfold regInv at hQ1
  obtain ⟨f1, f2, f3, f4, f5⟩ := hQ1
  have hget1 : GetCallback
      (SaveHandlerMapping (SaveCallbackWithClosure callbacksInit t slot t)
        h1 t) t = some slot := by
    unfold GetCallback
    rw [f1]
    simp [lookupK]
  have e2 : ConnectSignal
      (SaveHandlerMapping (SaveCallbackWithClosure callbacksInit t slot t)
        h1 t) t slot2 h2 =
      (SaveHandlerMapping
        (SaveHandlerMapping (SaveCallbackWithClosure callbacksInit t slot t)
          h1 t) h2 t, h2) := by
    unfold ConnectSignal
    rw [hget1]
  have hQ2 : regInv t slot t [h2, h1] []
      (SaveHandlerMapping
        (SaveHandlerMapping (SaveCallbackWithClosure callbacksInit t slot t)
          h1 t) h2 t) := by
    refine SaveHandlerMapping_regInv ?_ h2ne (by simp [Ne.symm hne])
    unfold regInv
    exact ⟨f1, f2, f3, f4, f5⟩
  unfold regInv at hQ2
  obtain ⟨g1, g2, g3, g4, g5⟩ := hQ2
  refine ⟨by simp [e1], by simp [e1, e2], by simpa [e1] using hget1, ?_, ?_, ?_⟩
  · simp only [e1, e2]
    show GetCallback _ t = some slot
    unfold GetCallback
    rw [g1]
    simp [lookupK]
  · simp only [e1, e2]
    rw [g3]
    simp [lookupK, Ne.symm hne]
  · simp only [e1, e2]
    rw [g3]
    simp [lookupK]

/-- Witness for C7 with token 3, slots 10 and 11, handler ids 1 and 2. -/
theorem slot_reuse_witness :
    (ConnectSignal callbacksInit 3 10 1).2 = 1 ∧
    (ConnectSignal (ConnectSignal callbacksInit 3 10 1).1 3 11 2).2 = 2 ∧
    GetCallback (ConnectSignal callbacksInit 3 10 1).1 3 = some 10 ∧
    GetCallback
      (ConnectSignal (ConnectSignal callbacksInit 3 10 1).1 3 11 2).1 3
      = some 10 ∧
    lookupK 1 (ConnectSignal (ConnectSignal callbacksInit 3 10 1).1 3
      11 2).1.handlerToCallback = some 3 ∧
    lookupK 2 (ConnectSignal (ConnectSignal callbacksInit 3 10 1).1 3
      11 2).1.handlerToCallback = some 3 :=
  slot_reuse 3 10 11 1 2 (by decide) (by decide) (by decide)

/-- C8: a token mapped by one handler id and one source id survives the
removal of either single mapping (it stays in refs and closures), and
removing the remaining mapping then evicts it — the registry returns to
its initial state. -/
theorem cross_path_sharing (t r c hid sid : Nat) (hh : hid ≠ 0)
    (hs0 : sid ≠ 0) :
    GetCallback (RemoveCallbackByHandler (SaveSourceMapping (SaveHandlerMapping
      (SaveCallbackWithClosure callbacksInit t r c) hid t) sid t) hid) t
        = some r ∧
    lookupK t (RemoveCallbackByHandler (SaveSourceMapping (SaveHandlerMapping
      (SaveCallbackWithClosure callbacksInit t r c) hid t) sid t) hid).closures
        = some c ∧
    GetCallback (RemoveCallbackBySource (SaveSourceMapping (SaveHandlerMapping
      (SaveCallbackWithClosure callbacksInit t r c) hid t) sid t) sid) t
        = some r ∧
    lookupK t (RemoveCallbackBySource (SaveSourceMapping (SaveHandlerMapping
      (SaveCallbackWithClosure callbacksInit t r c) hid t) sid t) sid).closures
        = some c ∧
    RemoveCallbackBySource (RemoveCallbackByHandler (SaveSourceMapping
      (SaveHandlerMapping (SaveCallbackWithClosure callbacksInit t r c) hid t)
      sid t) hid) sid = callbacksInit ∧
    RemoveCallbackByHandler (RemoveCallbackBySource (SaveSourceMapping
      (SaveHandlerMapping (SaveCallbackWithClosure callbacksInit t r c) hid t)
      sid t) sid) hid = callbacksInit := by
  have hQ2 : regInv t r c [hid] [sid] (SaveSourceMapping (SaveHandlerMapping
      (SaveCallbackWithClosure callbacksInit t r c) hid t) sid t) :=
    SaveSourceMapping_regInv
      (SaveHandlerMapping_regInv (SaveCallbackWithClosure_init_regInv t r c)
        hh (by simp)) hs0 (by simp)
  have hRH := RemoveCallbackByHandler_regInv_keep hQ2 (by simp)
    (List.mem_singleton.mpr rfl) (by norm_num)
  rw [List.erase_cons_head] at hRH
  have hRS := RemoveCallbackBySource_regInv_keep hQ2 (by simp)
    (List.mem_singleton.mpr rfl) (by norm_num)
  rw [List.erase_cons_head] at hRS
  have h5 := RemoveCallbackBySource_regInv_last hRH
  have h6 := RemoveCallbackByHandler_regInv_last hRS
  unfold regInv at hRH hRS
  obtain ⟨a1, a2, a3, a4, a5⟩ := hRH
  obtain ⟨b1, b2, b3, b4, b5⟩ := hRS
  refine ⟨?_, ?_, ?_, ?_, h5, h6⟩
  · unfold GetCallback
    rw [a1]
    simp [lookupK]
  · rw [a2]
    simp [lookupK]
  · unfold GetCallback
    rw [b1]
    simp [lookupK]
  · rw [b2]
    simp [lookupK]

/-- Witness for C8 with token 1, ref 2, closure 3, handler id 4, source
id 5. -/
theorem cross_path_sharing_witness :
    GetCallback (RemoveCallbackByHandler (SaveSourceMapping (SaveHandlerMapping
      (SaveCallbackWithClosure callbacksInit 1 2 3) 4 1) 5 1) 4) 1
        = some 2 ∧
    lookupK 1 (RemoveCallbackByHandler (SaveSourceMapping (SaveHandlerMapping
      (SaveCallbackWithClosure callbacksInit 1 2 3) 4 1) 5 1) 4).closures
        = some 3 ∧
    GetCallback (RemoveCallbackBySource (SaveSourceMapping (SaveHandlerMapping
      (SaveCallbackWithClosure callbacksInit 1 2 3) 4 1) 5 1) 5) 1
        = some 2 ∧
    lookupK 1 (RemoveCallbackBySource (SaveSourceMapping (SaveHandlerMapping
      (SaveCallbackWithClosure callbacksInit 1 2 3) 4 1) 5 1) 5).closures
        = some 3 ∧
    RemoveCallbackBySource (RemoveCallbackByHandler (SaveSourceMapping
      (SaveHandlerMapping (SaveCallbackWithClosure callbacksInit 1 2 3) 4 1)
      5 1) 4) 5 = callbacksInit ∧
    RemoveCallbackByHandler (RemoveCallbackBySource (SaveSourceMapping
      (SaveHandlerMapping (SaveCallbackWithClosure callbacksInit 1 2 3) 4 1)
      5 1) 5) 4 = callbacksInit :=
  cross_path_sharing 1 2 3 4 5 (by decide) (by decide)


/-! The reference-count invariant over arbitrary operation sequences. -/

theorem hasCallbackMappings_iff (s : CallbackState) (t : Nat) :
    hasCallbackMappings s t = true ↔ 0 < mcount s t := by
  unfold hasCallbackMappings mcount
  rw [Bool.or_eq_true, anyV_eq_true_iff, anyV_eq_true_iff]
  omega

theorem SaveCallbackWithClosure_cnt_some {s : CallbackState} {cb : Nat}
    (r cl : Nat) {c0 : Int} (he : lookupK cb s.callbackRefCount = some c0) :
    (SaveCallbackWithClosure s cb r cl).callbackRefCount =
      s.callbackRefCount := by
  unfold SaveCallbackWithClosure
  simp only [he]

theorem SaveCallbackWithClosure_cnt_none {s : CallbackState} {cb : Nat}
    (r cl : Nat) (he : lookupK cb s.callbackRefCount = none) :
    (SaveCallbackWithClosure s cb r cl).callbackRefCount =
      insertK cb 1 s.callbackRefCount := by
  unfold SaveCallbackWithClosure
  simp only [he]

theorem SaveHandlerMapping_same {s : CallbackState} {id p : Nat}
    (hid : id ≠ 0) (hl : lookupK id s.handlerToCallback = some p) :
    SaveHandlerMapping s id p = s := by
  unfold SaveHandlerMapping
  rw [if_neg hid, hl]
  exact if_pos rfl

theorem SaveSourceMapping_same {s : CallbackState} {id p : Nat}
    (hid : id ≠ 0) (hl : lookupK id s.sourceToCallback = some p) :
    SaveSourceMapping s id p = s := by
  unfold SaveSourceMapping
  rw [if_neg hid, hl]
  exact if_pos rfl

theorem SaveHandlerMapping_overwrite {s : CallbackState} {id prev p : Nat}
    (hid : id ≠ 0) (hl : lookupK id s.handlerToCallback = some prev)
    (hne : prev ≠ p) :
    SaveHandlerMapping s id p =
      acquireCallbackRef
        { releaseCallbackRef s prev with
            handlerToCallback := insertK id p s.handlerToCallback } p := by
  have hmem : (id, prev) ∈ s.handlerToCallback := mem_of_lookupK_some hl
  have hcV : 0 < countV prev s.handlerToCallback := countV_pos_of_mem hmem
  have hmaps : hasCallbackMappings (releaseCallbackRef s prev) prev = true := by
    rw [hasCallbackMappings_iff]
    show 0 < countV prev (releaseCallbackRef s prev).handlerToCallback +
      countV prev (releaseCallbackRef s prev).sourceToCallback
    rw [releaseCallbackRef_handlerToCallback]
    omega
  unfold SaveHandlerMapping
  rw [if_neg hid, hl]
  simp only [if_neg hne, hmaps, if_true, releaseCallbackRef_handlerToCallback]

theorem SaveSourceMapping_overwrite {s : CallbackState} {id prev p : Nat}
    (hid : id ≠ 0) (hl : lookupK id s.sourceToCallback = some prev)
    (hne : prev ≠ p) :
    SaveSourceMapping s id p =
      acquireCallbackRef
        { releaseCallbackRef s prev with
            sourceToCallback := insertK id p s.sourceToCallback } p := by
  have hmem : (id, prev) ∈ s.sourceToCallback := mem_of_lookupK_some hl
  have hcV : 0 < countV prev s.sourceToCallback := countV_pos_of_mem hmem
  have hmaps : hasCallbackMappings (releaseCallbackRef s prev) prev = true := by
    rw [hasCallbackMappings_iff]
    show 0 < countV prev (releaseCallbackRef s prev).handlerToCallback +
      countV prev (releaseCallbackRef s prev).sourceToCallback
    rw [releaseCallbackRef_sourceToCallback]
    omega
  unfold SaveSourceMapping
  rw [if_neg hid, hl]
  simp only [if_neg hne, hmaps, if_true, releaseCallbackRef_sourceToCallback]

theorem RegistryInv.saveCallback {s : CallbackState} (h : RegistryInv s)
    (cb r : Nat) : RegistryInv (SaveCallback s cb r) :=
  ⟨h.hnd, h.snd, h.pos, h.lower, h.upper, h.zero⟩

theorem RegistryInv.saveCallbackWithClosure {s : CallbackState}
    (h : RegistryInv s) (cb r cl : Nat) :
    RegistryInv (SaveCallbackWithClosure s cb r cl) := by
  have hmc : ∀ t, mcount (SaveCallbackWithClosure s cb r cl) t = mcount s t :=
    fun _ => rfl
  cases he : lookupK cb s.callbackRefCount with
  | some c0 =>
    have hcnt := SaveCallbackWithClosure_cnt_some r cl he
    refine ⟨h.hnd, h.snd, ?_, ?_, ?_, ?_⟩
    · intro t c hc
      rw [hcnt] at hc
      exact h.pos t c hc
    · intro t c hc
      rw [hcnt] at hc
      rw [hmc]
      exact h.lower t c hc
    · intro t c hc
      rw [hcnt] at hc
      rw [hmc]
      exact h.upper t c hc
    · intro t hc
      rw [hcnt] at hc
      rw [hmc]
      exact h.zero t hc
  | none =>
    have hcnt := SaveCallbackWithClosure_cnt_none r cl he
    refine ⟨h.hnd, h.snd, ?_, ?_, ?_, ?_⟩
    · intro t c hc
      rw [hcnt] at hc
      by_cases ht : t = cb
      · subst ht
        rw [lookupK_insertK_self] at hc
        cases hc
        omega
      · rw [lookupK_insertK_ne ht] at hc
        exact h.pos t c hc
    · intro t c hc
      rw [hcnt] at hc
      rw [hmc]
      by_cases ht : t = cb
      · subst ht
        rw [lookupK_insertK_self] at hc
        cases hc
        have hz := h.zero t he
        omega
      · rw [lookupK_insertK_ne ht] at hc
        exact h.lower t c hc
    · intro t c hc
      rw [hcnt] at hc
      rw [hmc]
      by_cases ht : t = cb
      · subst ht
        rw [lookupK_insertK_self] at hc
        cases hc
        omega
      · rw [lookupK_insertK_ne ht] at hc
        exact h.upper t c hc
    · intro t hc
      rw [hcnt] at hc
      rw [hmc]
      by_cases ht : t = cb
      · subst ht
        rw [lookupK_insertK_self] at hc
        cases hc
      · rw [lookupK_insertK_ne ht] at hc
        exact h.zero t hc

theorem RegistryInv.removeCallback {s : CallbackState} (h : RegistryInv s)
    (cb : Nat) : RegistryInv (RemoveCallback s cb) := by
  have hmc : ∀ t, t ≠ cb → mcount (RemoveCallback s cb) t = mcount s t := by
    intro t ht
    show countV t (eraseV cb s.handlerToCallback) +
      countV t (eraseV cb s.sourceToCallback) = _
    rw [countV_eraseV_of_ne ht, countV_eraseV_of_ne ht]
    rfl
  have hmcb : mcount (RemoveCallback s cb) cb = 0 := by
    show countV cb (eraseV cb s.handlerToCallback) +
      countV cb (eraseV cb s.sourceToCallback) = 0
    rw [countV_eraseV_self, countV_eraseV_self]
  refine ⟨keysNodup_eraseV cb h.hnd, keysNodup_eraseV cb h.snd, ?_, ?_, ?_, ?_⟩
  · intro t c hc
    by_cases ht : t = cb
    · subst ht
      rw [show (RemoveCallback s t).callbackRefCount =
          eraseK t s.callbackRefCount from rfl, lookupK_eraseK_self] at hc
      cases hc
    · rw [show (RemoveCallback s cb).callbackRefCount =
          eraseK cb s.callbackRefCount from rfl, lookupK_eraseK_ne ht] at hc
      exact h.pos t c hc
  · intro t c hc
    by_cases ht : t = cb
    · subst ht
      rw [show (RemoveCallback s t).callbackRefCount =
          eraseK t s.callbackRefCount from rfl, lookupK_eraseK_self] at hc
      cases hc
    · rw [show (RemoveCallback s cb).callbackRefCount =
          eraseK cb s.callbackRefCount from rfl, lookupK_eraseK_ne ht] at hc
      rw [hmc t ht]
      exact h.lower t c hc
  · intro t c hc
    by_cases ht : t = cb
    · subst ht
      rw [show (RemoveCallback s t).callbackRefCount =
          eraseK t s.callbackRefCount from rfl, lookupK_eraseK_self] at hc
      cases hc
    · rw [show (RemoveCallback s cb).callbackRefCount =
          eraseK cb s.callbackRefCount from rfl, lookupK_eraseK_ne ht] at hc
      rw [hmc t ht]
      exact h.upper t c hc
  · intro t hc
    by_cases ht : t = cb
    · subst ht
      exact hmcb
    · rw [show (RemoveCallback s cb).callbackRefCount =
          eraseK cb s.callbackRefCount from rfl, lookupK_eraseK_ne ht] at hc
      rw [hmc t ht]
      exact h.zero t hc


theorem RegistryInv.acquireHandlerFresh {s : CallbackState} (h : RegistryInv s)
    {id p : Nat} (hl : lookupK id s.handlerToCallback = none) :
    RegistryInv (acquireCallbackRef
      { s with handlerToCallback := insertK id p s.handlerToCallback } p) := by
  have hm : ∀ t, mcount (acquireCallbackRef
      { s with handlerToCallback := insertK id p s.handlerToCallback } p) t =
      (if p = t then 1 else 0) + mcount s t := by
    intro t
    show countV t (insertK id p s.handlerToCallback) +
      countV t s.sourceToCallback = _
    rw [countV_insertK, eraseK_of_lookupK_none hl]
    unfold mcount
    omega
  have hcnt : ∀ t, lookupK t (acquireCallbackRef
      { s with handlerToCallback := insertK id p s.handlerToCallback }
        p).callbackRefCount =
      lookupK t (insertK p ((lookupK p s.callbackRefCount).getD 0 + 1)
        s.callbackRefCount) := fun t => rfl
  refine ⟨keysNodup_insertK id p h.hnd, h.snd, ?_, ?_, ?_, ?_⟩
  · intro t c hc
    rw [hcnt] at hc
    by_cases ht : t = p
    · subst ht
      rw [lookupK_insertK_self] at hc
      cases hc2 : lookupK t s.callbackRefCount with
      | none =>
        rw [hc2] at hc
        cases hc
        simp only [Option.getD]
        omega
      | some c0 =>
        have := h.pos t c0 hc2
        rw [hc2] at hc
        cases hc
        simp only [Option.getD]
        omega
    · rw [lookupK_insertK_ne ht] at hc
      exact h.pos t c hc
  · intro t c hc
    rw [hcnt] at hc
    rw [hm]
    by_cases ht : t = p
    · subst ht
      rw [lookupK_insertK_self] at hc
      rw [if_pos rfl]
      cases hc2 : lookupK t s.callbackRefCount with
      | none =>
        have hz := h.zero t hc2
        rw [hc2] at hc
        cases hc
        simp only [Option.getD]
        omega
      | some c0 =>
        have := h.lower t c0 hc2
        rw [hc2] at hc
        cases hc
        simp only [Option.getD]
        omega
    · rw [lookupK_insertK_ne ht] at hc
      rw [if_neg (fun e => ht e.symm)]
      have := h.lower t c hc
      omega
  · intro t c hc
    rw [hcnt] at hc
    rw [hm]
    by_cases ht : t = p
    · subst ht
      rw [lookupK_insertK_self] at hc
      rw [if_pos rfl]
      cases hc2 : lookupK t s.callbackRefCount with
      | none =>
        rw [hc2] at hc
        cases hc
        simp only [Option.getD]
        omega
      | some c0 =>
        have := h.upper t c0 hc2
        rw [hc2] at hc
        cases hc
        simp only [Option.getD]
        omega
    · rw [lookupK_insertK_ne ht] at hc
      rw [if_neg (fun e => ht e.symm)]
      have := h.upper t c hc
      omega
  · intro t hc
    rw [hcnt] at hc
    by_cases ht : t = p
    · subst ht
      rw [lookupK_insertK_self] at hc
      cases hc
    · rw [lookupK_insertK_ne ht] at hc
      rw [hm, if_neg (fun e => ht e.symm)]
      have := h.zero t hc
      omega

theorem RegistryInv.acquireSourceFresh {s : CallbackState} (h : RegistryInv s)
    {id p : Nat} (hl : lookupK id s.sourceToCallback = none) :
    RegistryInv (acquireCallbackRef
      { s with sourceToCallback := insertK id p s.sourceToCallback } p) := by
  have hm : ∀ t, mcount (acquireCallbackRef
      { s with sourceToCallback := insertK id p s.sourceToCallback } p) t =
      (if p = t then 1 else 0) + mcount s t := by
    intro t
    show countV t s.handlerToCallback +
      countV t (insertK id p s.sourceToCallback) = _
    rw [countV_insertK, eraseK_of_lookupK_none hl]
    unfold mcount
    omega
  have hcnt : ∀ t, lookupK t (acquireCallbackRef
      { s with sourceToCallback := insertK id p s.sourceToCallback }
        p).callbackRefCount =
      lookupK t (insertK p ((lookupK p s.callbackRefCount).getD 0 + 1)
        s.callbackRefCount) := fun t => rfl
  refine ⟨h.hnd, keysNodup_insertK id p h.snd, ?_, ?_, ?_, ?_⟩
  · intro t c hc
    rw [hcnt] at hc
    by_cases ht : t = p
    · subst ht
      rw [lookupK_insertK_self] at hc
      cases hc2 : lookupK t s.callbackRefCount with
      | none =>
        rw [hc2] at hc
        cases hc
        simp only [Option.getD]
        omega
      | some c0 =>
        have := h.pos t c0 hc2
        rw [hc2] at hc
        cases hc
        simp only [Option.getD]
        omega
    · rw [lookupK_insertK_ne ht] at hc
      exact h.pos t c hc
  · intro t c hc
    rw [hcnt] at hc
    rw [hm]
    by_cases ht : t = p
    · subst ht
      rw [lookupK_insertK_self] at hc
      rw [if_pos rfl]
      cases hc2 : lookupK t s.callbackRefCount with
      | none =>
        have hz := h.zero t hc2
        rw [hc2] at hc
        cases hc
        simp only [Option.getD]
        omega
      | some c0 =>
        have := h.lower t c0 hc2
        rw [hc2] at hc
        cases hc
        simp only [Option.getD]
        omega
    · rw [lookupK_insertK_ne ht] at hc
      rw [if_neg (fun e => ht e.symm)]
      have := h.lower t c hc
      omega
  · intro t c hc
    rw [hcnt] at hc
    rw [hm]
    by_cases ht : t = p
    · subst ht
      rw [lookupK_insertK_self] at hc
      rw [if_pos rfl]
      cases hc2 : lookupK t s.callbackRefCount with
      | none =>
        rw [hc2] at hc
        cases hc
        simp only [Option.getD]
        omega
      | some c0 =>
        have := h.upper t c0 hc2
        rw [hc2] at hc
        cases hc
        simp only [Option.getD]
        omega
    · rw [lookupK_insertK_ne ht] at hc
      rw [if_neg (fun e => ht e.symm)]
      have := h.upper t c hc
      omega
  · intro t hc
    rw [hcnt] at hc
    by_cases ht : t = p
    · subst ht
      rw [lookupK_insertK_self] at hc
      cases hc
    · rw [lookupK_insertK_ne ht] at hc
      rw [hm, if_neg (fun e => ht e.symm)]
      have := h.zero t hc
      omega


theorem RegistryInv.overwriteHandlerAux {s : CallbackState} (h : RegistryInv s)
    {id prev p : Nat} (hl : lookupK id s.handlerToCallback = some prev)
    (hpne : prev ≠ p) (X : CallbackState)
    (hXs : X.sourceToCallback = s.sourceToCallback)
    (hXo : ∀ t, t ≠ prev →
      lookupK t X.callbackRefCount = lookupK t s.callbackRefCount)
    (hXsome : ∀ cx, lookupK prev X.callbackRefCount = some cx →
      (mcount s prev : Int) - 1 ≤ cx ∧ cx ≤ (mcount s prev : Int) ∧ 1 ≤ cx)
    (hXnone : lookupK prev X.callbackRefCount = none → mcount s prev = 1) :
    RegistryInv (acquireCallbackRef
      { X with handlerToCallback := insertK id p s.handlerToCallback } p) := by
  have hmem := mem_of_lookupK_some hl
  have hcVp : 0 < countV prev s.handlerToCallback := countV_pos_of_mem hmem
  have hE1 : countV prev (eraseK id s.handlerToCallback) + 1 =
      countV prev s.handlerToCallback := countV_eraseK_add_one h.hnd hl
  have hENe : ∀ t, t ≠ prev →
      countV t (eraseK id s.handlerToCallback) =
        countV t s.handlerToCallback :=
    fun t ht => countV_eraseK_of_ne h.hnd hl (fun e => ht e.symm)
  have hdefm : ∀ t, mcount s t = countV t s.handlerToCallback +
      countV t s.sourceToCallback := fun t => rfl
  have hmV : ∀ t, mcount (acquireCallbackRef
      { X with handlerToCallback := insertK id p s.handlerToCallback } p) t =
      (if p = t then 1 else 0) + countV t (eraseK id s.handlerToCallback) +
        countV t s.sourceToCallback := by
    intro t
    show countV t (insertK id p s.handlerToCallback) +
      countV t X.sourceToCallback = _
    rw [hXs, countV_insertK]
  have hcnt : ∀ t, lookupK t (acquireCallbackRef
      { X with handlerToCallback := insertK id p s.handlerToCallback }
        p).callbackRefCount =
      lookupK t (insertK p ((lookupK p X.callbackRefCount).getD 0 + 1)
        X.callbackRefCount) := fun t => rfl
  have hXop : lookupK p X.callbackRefCount = lookupK p s.callbackRefCount :=
    hXo p (fun e => hpne e.symm)
  refine ⟨keysNodup_insertK id p h.hnd, ?_, ?_, ?_, ?_, ?_⟩
  · show keysNodup X.sourceToCallback
    rw [hXs]
    exact h.snd
  · intro t c hc
    rw [hcnt] at hc
    by_cases htp : t = p
    · rw [htp, lookupK_insertK_self, hXop] at hc
      cases hsl : lookupK p s.callbackRefCount with
      | none =>
        rw [hsl] at hc
        cases hc
        simp only [Option.getD]
        omega
      | some c0 =>
        have := h.pos p c0 hsl
        rw [hsl] at hc
        cases hc
        simp only [Option.getD]
        omega
    · rw [lookupK_insertK_ne htp] at hc
      by_cases htq : t = prev
      · rw [htq] at hc
        obtain ⟨b1, b2, b3⟩ := hXsome c hc
        omega
      · rw [hXo t htq] at hc
        exact h.pos t c hc
  · intro t c hc
    rw [hcnt] at hc
    rw [hmV]
    by_cases htp : t = p
    · rw [htp] at hc ⊢
      rw [lookupK_insertK_self, hXop] at hc
      rw [if_pos rfl, hENe p (fun e => hpne e.symm)]
      cases hsl : lookupK p s.callbackRefCount with
      | none =>
        have hz := h.zero p hsl
        rw [hdefm p] at hz
        rw [hsl] at hc
        cases hc
        simp only [Option.getD]
        omega
      | some c0 =>
        have hlow := h.lower p c0 hsl
        rw [hdefm p] at hlow
        rw [hsl] at hc
        cases hc
        simp only [Option.getD]
        omega
    · rw [lookupK_insertK_ne htp] at hc
      by_cases htq : t = prev
      · rw [htq] at hc ⊢
        obtain ⟨b1, b2, b3⟩ := hXsome c hc
        have hd := hdefm prev
        rw [if_neg (fun e => hpne e.symm)]
        omega
      · rw [hXo t htq] at hc
        have hlow := h.lower t c hc
        rw [hdefm t] at hlow
        rw [if_neg (fun e => htp e.symm), hENe t htq]
        omega
  · intro t c hc
    rw [hcnt] at hc
    rw [hmV]
    by_cases htp : t = p
    · rw [htp] at hc ⊢
      rw [lookupK_insertK_self, hXop] at hc
      rw [if_pos rfl, hENe p (fun e => hpne e.symm)]
      cases hsl : lookupK p s.callbackRefCount with
      | none =>
        rw [hsl] at hc
        cases hc
        simp only [Option.getD]
        omega
      | some c0 =>
        have hup := h.upper p c0 hsl
        rw [hdefm p] at hup
        rw [hsl] at hc
        cases hc
        simp only [Option.getD]
        omega
    · rw [lookupK_insertK_ne htp] at hc
      by_cases htq : t = prev
      · rw [htq] at hc ⊢
        obtain ⟨b1, b2, b3⟩ := hXsome c hc
        have hd := hdefm prev
        rw [if_neg (fun e => hpne e.symm)]
        omega
      · rw [hXo t htq] at hc
        have hup := h.upper t c hc
        rw [hdefm t] at hup
        rw [if_neg (fun e => htp e.symm), hENe t htq]
        omega
  · intro t hc
    rw [hcnt] at hc
    rw [hmV]
    by_cases htp : t = p
    · rw [htp, lookupK_insertK_self] at hc
      cases hc
    · rw [lookupK_insertK_ne htp] at hc
      by_cases htq : t = prev
      · rw [htq] at hc ⊢
        have h1 := hXnone hc
        rw [hdefm prev] at h1
        rw [if_neg (fun e => hpne e.symm)]
        omega
      · rw [hXo t htq] at hc
        have hz := h.zero t hc
        rw [hdefm t] at hz
        rw [if_neg (fun e => htp e.symm), hENe t htq]
        omega

theorem RegistryInv.saveHandlerMapping {s : CallbackState} (h : RegistryInv s)
    (id p : Nat) : RegistryInv (SaveHandlerMapping s id p) := by
  by_cases hid : id = 0
  · have e : SaveHandlerMapping s id p = s := by
      unfold SaveHandlerMapping
      rw [if_pos hid]
    rw [e]
    exact h
  cases hl : lookupK id s.handlerToCallback with
  | none =>
    rw [SaveHandlerMapping_fresh hid hl]
    exact h.acquireHandlerFresh hl
  | some prev =>
    by_cases hpq : prev = p
    · rw [hpq] at hl
      rw [SaveHandlerMapping_same hid hl]
      exact h
    · rw [SaveHandlerMapping_overwrite hid hl hpq]
      have hmem := mem_of_lookupK_some hl
      have hcVp : 0 < countV prev s.handlerToCallback := countV_pos_of_mem hmem
      have hmpos : 0 < mcount s prev := by
        have hd : mcount s prev = countV prev s.handlerToCallback +
            countV prev s.sourceToCallback := rfl
        omega
      cases hcp : lookupK prev s.callbackRefCount with
      | none =>
        have := h.zero prev hcp
        omega
      | some cP =>
        have hp1 := h.pos prev cP hcp
        have hp2 := h.lower prev cP hcp
        have hp3 := h.upper prev cP hcp
        by_cases hrel : cP - 1 > 0
        · rw [releaseCallbackRef_found_pos hcp hrel]
          refine h.overwriteHandlerAux hl hpq _ rfl ?_ ?_ ?_
          · intro t ht
            show lookupK t (insertK prev (cP - 1) s.callbackRefCount) = _
            exact lookupK_insertK_ne ht _ _
          · intro cx hcx
            have : lookupK prev (insertK prev (cP - 1) s.callbackRefCount) =
                some (cP - 1) := lookupK_insertK_self _ _ _
            rw [this] at hcx
            cases hcx
            refine ⟨by omega, by omega, by omega⟩
          · intro hnone
            have : lookupK prev (insertK prev (cP - 1) s.callbackRefCount) =
                some (cP - 1) := lookupK_insertK_self _ _ _
            rw [this] at hnone
            cases hnone
        · rw [releaseCallbackRef_found_zero hcp hrel]
          refine h.overwriteHandlerAux hl hpq _ rfl ?_ ?_ ?_
          · intro t ht
            show lookupK t (eraseK prev s.callbackRefCount) = _
            exact lookupK_eraseK_ne ht _
          · intro cx hcx
            have : lookupK prev (eraseK prev s.callbackRefCount) = none :=
              lookupK_eraseK_self _ _
            rw [this] at hcx
            cases hcx
          · intro _
            omega


theorem RegistryInv.overwriteSourceAux {s : CallbackState} (h : RegistryInv s)
    {id prev p : Nat} (hl : lookupK id s.sourceToCallback = some prev)
    (hpne : prev ≠ p) (X : CallbackState)
    (hXh : X.handlerToCallback = s.handlerToCallback)
    (hXo : ∀ t, t ≠ prev →
      lookupK t X.callbackRefCount = lookupK t s.callbackRefCount)
    (hXsome : ∀ cx, lookupK prev X.callbackRefCount = some cx →
      (mcount s prev : Int) - 1 ≤ cx ∧ cx ≤ (mcount s prev : Int) ∧ 1 ≤ cx)
    (hXnone : lookupK prev X.callbackRefCount = none → mcount s prev = 1) :
    RegistryInv (acquireCallbackRef
      { X with sourceToCallback := insertK id p s.sourceToCallback } p) := by
  have hmem := mem_of_lookupK_some hl
  have hcVp : 0 < countV prev s.sourceToCallback := countV_pos_of_mem hmem
  have hE1 : countV prev (eraseK id s.sourceToCallback) + 1 =
      countV prev s.sourceToCallback := countV_eraseK_add_one h.snd hl
  have hENe : ∀ t, t ≠ prev →
      countV t (eraseK id s.sourceToCallback) =
        countV t s.sourceToCallback :=
    fun t ht => countV_eraseK_of_ne h.snd hl (fun e => ht e.symm)
  have hdefm : ∀ t, mcount s t = countV t s.handlerToCallback +
      countV t s.sourceToCallback := fun t => rfl
  have hmV : ∀ t, mcount (acquireCallbackRef
      { X with sourceToCallback := insertK id p s.sourceToCallback } p) t =
      (if p = t then 1 else 0) + countV t s.handlerToCallback +
        countV t (eraseK id s.sourceToCallback) := by
    intro t
    show countV t X.handlerToCallback +
      countV t (insertK id p s.sourceToCallback) = _
    rw [hXh, countV_insertK]
    omega
  have hcnt : ∀ t, lookupK t (acquireCallbackRef
      { X with sourceToCallback := insertK id p s.sourceToCallback }
        p).callbackRefCount =
      lookupK t (insertK p ((lookupK p X.callbackRefCount).getD 0 + 1)
        X.callbackRefCount) := fun t => rfl
  have hXop : lookupK p X.callbackRefCount = lookupK p s.callbackRefCount :=
    hXo p (fun e => hpne e.symm)
  refine ⟨?_, keysNodup_insertK id p h.snd, ?_, ?_, ?_, ?_⟩
  · show keysNodup X.handlerToCallback
    rw [hXh]
    exact h.hnd
  · intro t c hc
    rw [hcnt] at hc
    by_cases htp : t = p
    · rw [htp, lookupK_insertK_self, hXop] at hc
      cases hsl : lookupK p s.callbackRefCount with
      | none =>
        rw [hsl] at hc
        cases hc
        simp only [Option.getD]
        omega
      | some c0 =>
        have := h.pos p c0 hsl
        rw [hsl] at hc
        cases hc
        simp only [Option.getD]
        omega
    · rw [lookupK_insertK_ne htp] at hc
      by_cases htq : t = prev
      · rw [htq] at hc
        obtain ⟨b1, b2, b3⟩ := hXsome c hc
        omega
      · rw [hXo t htq] at hc
        exact h.pos t c hc
  · intro t c hc
    rw [hcnt] at hc
    rw [hmV]
    by_cases htp : t = p
    · rw [htp] at hc ⊢
      rw [lookupK_insertK_self, hXop] at hc
      rw [if_pos rfl, hENe p (fun e => hpne e.symm)]
      cases hsl : lookupK p s.callbackRefCount with
      | none =>
        have hz := h.zero p hsl
        rw [hdefm p] at hz
        rw [hsl] at hc
        cases hc
        simp only [Option.getD]
        omega
      | some c0 =>
        have hlow := h.lower p c0 hsl
        rw [hdefm p] at hlow
        rw [hsl] at hc
        cases hc
        simp only [Option.getD]
        omega
    · rw [lookupK_insertK_ne htp] at hc
      by_cases htq : t = prev
      · rw [htq] at hc ⊢
        obtain ⟨b1, b2, b3⟩ := hXsome c hc
        have hd := hdefm prev
        rw [if_neg (fun e => hpne e.symm)]
        omega
      · rw [hXo t htq] at hc
        have hlow := h.lower t c hc
        rw [hdefm t] at hlow
        rw [if_neg (fun e => htp e.symm), hENe t htq]
        omega
  · intro t c hc
    rw [hcnt] at hc
    rw [hmV]
    by_cases htp : t = p
    · rw [htp] at hc ⊢
      rw [lookupK_insertK_self, hXop] at hc
      rw [if_pos rfl, hENe p (fun e => hpne e.symm)]
      cases hsl : lookupK p s.callbackRefCount with
      | none =>
        rw [hsl] at hc
        cases hc
        simp only [Option.getD]
        omega
      | some c0 =>
        have hup := h.upper p c0 hsl
        rw [hdefm p] at hup
        rw [hsl] at hc
        cases hc
        simp only [Option.getD]
        omega
    · rw [lookupK_insertK_ne htp] at hc
      by_cases htq : t = prev
      · rw [htq] at hc ⊢
        obtain ⟨b1, b2, b3⟩ := hXsome c hc
        have hd := hdefm prev
        rw [if_neg (fun e => hpne e.symm)]
        omega
      · rw [hXo t htq] at hc
        have hup := h.upper t c hc
        rw [hdefm t] at hup
        rw [if_neg (fun e => htp e.symm), hENe t htq]
        omega
  · intro t hc
    rw [hcnt] at hc
    rw [hmV]
    by_cases htp : t = p
    · rw [htp, lookupK_insertK_self] at hc
      cases hc
    · rw [lookupK_insertK_ne htp] at hc
      by_cases htq : t = prev
      · rw [htq] at hc ⊢
        have h1 := hXnone hc
        rw [hdefm prev] at h1
        rw [if_neg (fun e => hpne e.symm)]
        omega
      · rw [hXo t htq] at hc
        have hz := h.zero t hc
        rw [hdefm t] at hz
        rw [if_neg (fun e => htp e.symm), hENe t htq]
        omega

theorem RegistryInv.saveSourceMapping {s : CallbackState} (h : RegistryInv s)
    (id p : Nat) : RegistryInv (SaveSourceMapping s id p) := by
  by_cases hid : id = 0
  · have e : SaveSourceMapping s id p = s := by
      unfold SaveSourceMapping
      rw [if_pos hid]
    rw [e]
    exact h
  cases hl : lookupK id s.sourceToCallback with
  | none =>
    rw [SaveSourceMapping_fresh hid hl]
    exact h.acquireSourceFresh hl
  | some prev =>
    by_cases hpq : prev = p
    · rw [hpq] at hl
      rw [SaveSourceMapping_same hid hl]
      exact h
    · rw [SaveSourceMapping_overwrite hid hl hpq]
      have hmem := mem_of_lookupK_some hl
      have hcVp : 0 < countV prev s.sourceToCallback := countV_pos_of_mem hmem
      have hmpos : 0 < mcount s prev := by
        have hd : mcount s prev = countV prev s.handlerToCallback +
            countV prev s.sourceToCallback := rfl
        omega
      cases hcp : lookupK prev s.callbackRefCount with
      | none =>
        have := h.zero prev hcp
        omega
      | some cP =>
        have hp1 := h.pos prev cP hcp
        have hp2 := h.lower prev cP hcp
        have hp3 := h.upper prev cP hcp
        by_cases hrel : cP - 1 > 0
        · rw [releaseCallbackRef_found_pos hcp hrel]
          refine h.overwriteSourceAux hl hpq _ rfl ?_ ?_ ?_
          · intro t ht
            show lookupK t (insertK prev (cP - 1) s.callbackRefCount) = _
            exact lookupK_insertK_ne ht _ _
          · intro cx hcx
            have : lookupK prev (insertK prev (cP - 1) s.callbackRefCount) =
                some (cP - 1) := lookupK_insertK_self _ _ _
            rw [this] at hcx
            cases hcx
            refine ⟨by omega, by omega, by omega⟩
          · intro hnone
            have : lookupK prev (insertK prev (cP - 1) s.callbackRefCount) =
                some (cP - 1) := lookupK_insertK_self _ _ _
            rw [this] at hnone
            cases hnone
        · rw [releaseCallbackRef_found_zero hcp hrel]
          refine h.overwriteSourceAux hl hpq _ rfl ?_ ?_ ?_
          · intro t ht
            show lookupK t (eraseK prev s.callbackRefCount) = _
            exact lookupK_eraseK_ne ht _
          · intro cx hcx
            have : lookupK prev (eraseK prev s.callbackRefCount) = none :=
              lookupK_eraseK_self _ _
            rw [this] at hcx
            cases hcx
          · intro _
            omega


theorem RegistryInv.removeHandlerAux {s : CallbackState} (h : RegistryInv s)
    {id cb : Nat} (hl : lookupK id s.handlerToCallback = some cb)
    (Y : CallbackState)
    (hY1 : Y.handlerToCallback = eraseK id s.handlerToCallback)
    (hY2 : Y.sourceToCallback = s.sourceToCallback)
    (hY4 : Y.callbackRefCount = s.callbackRefCount) :
    RegistryInv (if hasCallbackMappings (releaseCallbackRef Y cb) cb
      then releaseCallbackRef Y cb
      else releaseCallbackRef (releaseCallbackRef Y cb) cb) := by
  have hmem := mem_of_lookupK_some hl
  have hcV : 0 < countV cb s.handlerToCallback := countV_pos_of_mem hmem
  have hE1 : countV cb (eraseK id s.handlerToCallback) + 1 =
      countV cb s.handlerToCallback := countV_eraseK_add_one h.hnd hl
  have hENe : ∀ t, t ≠ cb → countV t (eraseK id s.handlerToCallback) =
      countV t s.handlerToCallback :=
    fun t ht => countV_eraseK_of_ne h.hnd hl (fun e => ht e.symm)
  have hdefm : ∀ t, mcount s t = countV t s.handlerToCallback +
      countV t s.sourceToCallback := fun t => rfl
  have hmpos : 0 < mcount s cb := by
    have := hdefm cb
    omega
  cases hcp : lookupK cb s.callbackRefCount with
  | none =>
    have := h.zero cb hcp
    omega
  | some cB =>
    have hp1 := h.pos cb cB hcp
    have hp2 := h.lower cb cB hcp
    have hp3 := h.upper cb cB hcp
    rw [hdefm cb] at hp2 hp3
    have hcY : lookupK cb Y.callbackRefCount = some cB := by
      rw [hY4]
      exact hcp
    by_cases hrel : cB - 1 > 0
    · rw [releaseCallbackRef_found_pos hcY hrel]
      split
      · next hmaps =>
        have hm1 : 0 < countV cb (eraseK id s.handlerToCallback) +
            countV cb s.sourceToCallback := by
          have h2 := (hasCallbackMappings_iff _ cb).mp hmaps
          have h3 : mcount ({ Y with callbackRefCount := insertK cb (cB - 1) Y.callbackRefCount } : CallbackState) cb =
              countV cb (eraseK id s.handlerToCallback) +
                countV cb s.sourceToCallback := by
            show countV cb Y.handlerToCallback +
              countV cb Y.sourceToCallback = _
            rw [hY1, hY2]
          rw [h3] at h2
          exact h2
        refine ⟨?_, ?_, ?_, ?_, ?_, ?_⟩
        · show keysNodup Y.handlerToCallback
          rw [hY1]
          exact keysNodup_eraseK id h.hnd
        · show keysNodup Y.sourceToCallback
          rw [hY2]
          exact h.snd
        · intro t c hc
          have hc' : lookupK t (insertK cb (cB - 1) Y.callbackRefCount)
              = some c := hc
          by_cases ht : t = cb
          · rw [ht, lookupK_insertK_self] at hc'
            cases hc'
            omega
          · rw [lookupK_insertK_ne ht, hY4] at hc'
            exact h.pos t c hc'
        · intro t c hc
          have hc' : lookupK t (insertK cb (cB - 1) Y.callbackRefCount)
              = some c := hc
          show (↑(countV t Y.handlerToCallback +
            countV t Y.sourceToCallback) : Int) ≤ c
          rw [hY1, hY2]
          by_cases ht : t = cb
          · rw [ht, lookupK_insertK_self] at hc'
            cases hc'
            rw [ht]
            omega
          · rw [lookupK_insertK_ne ht, hY4] at hc'
            have := h.lower t c hc'
            rw [hdefm t] at this
            rw [hENe t ht]
            omega
        · intro t c hc
          have hc' : lookupK t (insertK cb (cB - 1) Y.callbackRefCount)
              = some c := hc
          show (c : Int) ≤ ↑(countV t Y.handlerToCallback +
            countV t Y.sourceToCallback) + 1
          rw [hY1, hY2]
          by_cases ht : t = cb
          · rw [ht, lookupK_insertK_self] at hc'
            cases hc'
            rw [ht]
            omega
          · rw [lookupK_insertK_ne ht, hY4] at hc'
            have := h.upper t c hc'
            rw [hdefm t] at this
            rw [hENe t ht]
            omega
        · intro t hc
          have hc' : lookupK t (insertK cb (cB - 1) Y.callbackRefCount)
              = none := hc
          show countV t Y.handlerToCallback +
            countV t Y.sourceToCallback = 0
          rw [hY1, hY2]
          by_cases ht : t = cb
          · rw [ht, lookupK_insertK_self] at hc'
            cases hc'
          · rw [lookupK_insertK_ne ht, hY4] at hc'
            have := h.zero t hc'
            rw [hdefm t] at this
            rw [hENe t ht]
            omega
      · next hnmaps =>
        have hm0' := mt (hasCallbackMappings_iff _ cb).mpr hnmaps
        have hm0 : ¬(0 < countV cb (eraseK id s.handlerToCallback) +
            countV cb s.sourceToCallback) := by
          intro hpos0
          apply hm0'
          show 0 < countV cb Y.handlerToCallback +
            countV cb Y.sourceToCallback
          rw [hY1, hY2]
          exact hpos0
        have hcB2 : cB = 2 := by omega
        have hc2 : lookupK cb ({ Y with callbackRefCount := insertK cb (cB - 1) Y.callbackRefCount } : CallbackState).callbackRefCount = some (cB - 1) :=
          lookupK_insertK_self _ _ _
        have hrel2 : ¬(cB - 1) - 1 > 0 := by omega
        rw [releaseCallbackRef_found_zero hc2 hrel2]
        refine ⟨?_, ?_, ?_, ?_, ?_, ?_⟩
        · show keysNodup Y.handlerToCallback
          rw [hY1]
          exact keysNodup_eraseK id h.hnd
        · show keysNodup Y.sourceToCallback
          rw [hY2]
          exact h.snd
        · intro t c hc
          have hc' : lookupK t (eraseK cb (insertK cb (cB - 1)
              Y.callbackRefCount)) = some c := hc
          by_cases ht : t = cb
          · rw [ht, lookupK_eraseK_self] at hc'
            cases hc'
          · rw [lookupK_eraseK_ne ht, lookupK_insertK_ne ht, hY4] at hc'
            exact h.pos t c hc'
        · intro t c hc
          have hc' : lookupK t (eraseK cb (insertK cb (cB - 1)
              Y.callbackRefCount)) = some c := hc
          show (↑(countV t Y.handlerToCallback +
            countV t Y.sourceToCallback) : Int) ≤ c
          rw [hY1, hY2]
          by_cases ht : t = cb
          · rw [ht, lookupK_eraseK_self] at hc'
            cases hc'
          · rw [lookupK_eraseK_ne ht, lookupK_insertK_ne ht, hY4] at hc'
            have := h.lower t c hc'
            rw [hdefm t] at this
            rw [hENe t ht]
            omega
        · intro t c hc
          have hc' : lookupK t (eraseK cb (insertK cb (cB - 1)
              Y.callbackRefCount)) = some c := hc
          show (c : Int) ≤ ↑(countV t Y.handlerToCallback +
            countV t Y.sourceToCallback) + 1
          rw [hY1, hY2]
          by_cases ht : t = cb
          · rw [ht, lookupK_eraseK_self] at hc'
            cases hc'
          · rw [lookupK_eraseK_ne ht, lookupK_insertK_ne ht, hY4] at hc'
            have := h.upper t c hc'
            rw [hdefm t] at this
            rw [hENe t ht]
            omega
        · intro t hc
          have hc' : lookupK t (eraseK cb (insertK cb (cB - 1)
              Y.callbackRefCount)) = none := hc
          show countV t Y.handlerToCallback +
            countV t Y.sourceToCallback = 0
          rw [hY1, hY2]
          by_cases ht : t = cb
          · rw [ht]
            omega
          · rw [lookupK_eraseK_ne ht, lookupK_insertK_ne ht, hY4] at hc'
            have := h.zero t hc'
            rw [hdefm t] at this
            rw [hENe t ht]
            omega
    · have hcB1 : cB = 1 := by omega
      have hm1 : countV cb s.handlerToCallback +
          countV cb s.sourceToCallback = 1 := by omega
      rw [releaseCallbackRef_found_zero hcY hrel]
      split
      · next hmaps =>
        have h2 := (hasCallbackMappings_iff _ cb).mp hmaps
        have h3 : mcount ({ Y with callbackRefCount := eraseK cb Y.callbackRefCount, refs := eraseK cb Y.refs, closures := eraseK cb Y.closures } : CallbackState) cb =
            countV cb (eraseK id s.handlerToCallback) +
              countV cb s.sourceToCallback := by
          show countV cb Y.handlerToCallback +
            countV cb Y.sourceToCallback = _
          rw [hY1, hY2]
        rw [h3] at h2
        omega
      · next hnmaps =>
        have hc2 : lookupK cb ({ Y with callbackRefCount := eraseK cb Y.callbackRefCount, refs := eraseK cb Y.refs, closures := eraseK cb Y.closures } : CallbackState).callbackRefCount = none :=
          lookupK_eraseK_self _ _
        rw [releaseCallbackRef_none hc2]
        refine ⟨?_, ?_, ?_, ?_, ?_, ?_⟩
        · show keysNodup Y.handlerToCallback
          rw [hY1]
          exact keysNodup_eraseK id h.hnd
        · show keysNodup Y.sourceToCallback
          rw [hY2]
          exact h.snd
        · intro t c hc
          have hc' : lookupK t (eraseK cb Y.callbackRefCount) = some c := hc
          by_cases ht : t = cb
          · rw [ht, lookupK_eraseK_self] at hc'
            cases hc'
          · rw [lookupK_eraseK_ne ht, hY4] at hc'
            exact h.pos t c hc'
        · intro t c hc
          have hc' : lookupK t (eraseK cb Y.callbackRefCount) = some c := hc
          show (↑(countV t Y.handlerToCallback +
            countV t Y.sourceToCallback) : Int) ≤ c
          rw [hY1, hY2]
          by_cases ht : t = cb
          · rw [ht, lookupK_eraseK_self] at hc'
            cases hc'
          · rw [lookupK_eraseK_ne ht, hY4] at hc'
            have := h.lower t c hc'
            rw [hdefm t] at this
            rw [hENe t ht]
            omega
        · intro t c hc
          have hc' : lookupK t (eraseK cb Y.callbackRefCount) = some c := hc
          show (c : Int) ≤ ↑(countV t Y.handlerToCallback +
            countV t Y.sourceToCallback) + 1
          rw [hY1, hY2]
          by_cases ht : t = cb
          · rw [ht, lookupK_eraseK_self] at hc'
            cases hc'
          · rw [lookupK_eraseK_ne ht, hY4] at hc'
            have := h.upper t c hc'
            rw [hdefm t] at this
            rw [hENe t ht]
            omega
        · intro t hc
          have hc' : lookupK t (eraseK cb Y.callbackRefCount) = none := hc
          show countV t Y.handlerToCallback +
            countV t Y.sourceToCallback = 0
          rw [hY1, hY2]
          by_cases ht : t = cb
          · rw [ht]
            omega
          · rw [lookupK_eraseK_ne ht, hY4] at hc'
            have := h.zero t hc'
            rw [hdefm t] at this
            rw [hENe t ht]
            omega

theorem RegistryInv.removeCallbackByHandler {s : CallbackState}
    (h : RegistryInv s) (id : Nat) :
    RegistryInv (RemoveCallbackByHandler s id) := by
  cases hl : lookupK id s.handlerToCallback with
  | none =>
    rw [RemoveCallbackByHandler_of_lookupK_none hl]
    exact h
  | some cb =>
    rw [RemoveCallbackByHandler_found hl]
    exact h.removeHandlerAux hl _ rfl rfl rfl


theorem RegistryInv.removeSourceAux {s : CallbackState} (h : RegistryInv s)
    {id cb : Nat} (hl : lookupK id s.sourceToCallback = some cb)
    (Y : CallbackState)
    (hY1 : Y.sourceToCallback = eraseK id s.sourceToCallback)
    (hY2 : Y.handlerToCallback = s.handlerToCallback)
    (hY4 : Y.callbackRefCount = s.callbackRefCount) :
    RegistryInv (if hasCallbackMappings (releaseCallbackRef Y cb) cb
      then releaseCallbackRef Y cb
      else releaseCallbackRef (releaseCallbackRef Y cb) cb) := by
  have hmem := mem_of_lookupK_some hl
  have hcV : 0 < countV cb s.sourceToCallback := countV_pos_of_mem hmem
  have hE1 : countV cb (eraseK id s.sourceToCallback) + 1 =
      countV cb s.sourceToCallback := countV_eraseK_add_one h.snd hl
  have hENe : ∀ t, t ≠ cb → countV t (eraseK id s.sourceToCallback) =
      countV t s.sourceToCallback :=
    fun t ht => countV_eraseK_of_ne h.snd hl (fun e => ht e.symm)
  have hdefm : ∀ t, mcount s t = countV t s.handlerToCallback +
      countV t s.sourceToCallback := fun t => rfl
  have hmpos : 0 < mcount s cb := by
    have := hdefm cb
    omega
  cases hcp : lookupK cb s.callbackRefCount with
  | none =>
    have := h.zero cb hcp
    omega
  | some cB =>
    have hp1 := h.pos cb cB hcp
    have hp2 := h.lower cb cB hcp
    have hp3 := h.upper cb cB hcp
    rw [hdefm cb] at hp2 hp3
    have hcY : lookupK cb Y.callbackRefCount = some cB := by
      rw [hY4]
      exact hcp
    by_cases hrel : cB - 1 > 0
    · rw [releaseCallbackRef_found_pos hcY hrel]
      split
      · next hmaps =>
        have hm1 : 0 < countV cb s.handlerToCallback +
            countV cb (eraseK id s.sourceToCallback) := by
          have h2 := (hasCallbackMappings_iff _ cb).mp hmaps
          have h3 : mcount ({ Y with callbackRefCount := insertK cb (cB - 1) Y.callbackRefCount } : CallbackState) cb =
              countV cb s.handlerToCallback +
                countV cb (eraseK id s.sourceToCallback) := by
            show countV cb Y.handlerToCallback +
              countV cb Y.sourceToCallback = _
            rw [hY1, hY2]
          rw [h3] at h2
          exact h2
        refine ⟨?_, ?_, ?_, ?_, ?_, ?_⟩
        · show keysNodup Y.handlerToCallback
          rw [hY2]
          exact h.hnd
        · show keysNodup Y.sourceToCallback
          rw [hY1]
          exact keysNodup_eraseK id h.snd
        · intro t c hc
          have hc' : lookupK t (insertK cb (cB - 1) Y.callbackRefCount)
              = some c := hc
          by_cases ht : t = cb
          · rw [ht, lookupK_insertK_self] at hc'
            cases hc'
            omega
          · rw [lookupK_insertK_ne ht, hY4] at hc'
            exact h.pos t c hc'
        · intro t c hc
          have hc' : lookupK t (insertK cb (cB - 1) Y.callbackRefCount)
              = some c := hc
          show (↑(countV t Y.handlerToCallback +
            countV t Y.sourceToCallback) : Int) ≤ c
          rw [hY1, hY2]
          by_cases ht : t = cb
          · rw [ht, lookupK_insertK_self] at hc'
            cases hc'
            rw [ht]
            omega
          · rw [lookupK_insertK_ne ht, hY4] at hc'
            have := h.lower t c hc'
            rw [hdefm t] at this
            rw [hENe t ht]
            omega
        · intro t c hc
          have hc' : lookupK t (insertK cb (cB - 1) Y.callbackRefCount)
              = some c := hc
          show (c : Int) ≤ ↑(countV t Y.handlerToCallback +
            countV t Y.sourceToCallback) + 1
          rw [hY1, hY2]
          by_cases ht : t = cb
          · rw [ht, lookupK_insertK_self] at hc'
            cases hc'
            rw [ht]
            omega
          · rw [lookupK_insertK_ne ht, hY4] at hc'
            have := h.upper t c hc'
            rw [hdefm t] at this
            rw [hENe t ht]
            omega
        · intro t hc
          have hc' : lookupK t (insertK cb (cB - 1) Y.callbackRefCount)
              = none := hc
          show countV t Y.handlerToCallback +
            countV t Y.sourceToCallback = 0
          rw [hY1, hY2]
          by_cases ht : t = cb
          · rw [ht, lookupK_insertK_self] at hc'
            cases hc'
          · rw [lookupK_insertK_ne ht, hY4] at hc'
            have := h.zero t hc'
            rw [hdefm t] at this
            rw [hENe t ht]
            omega
      · next hnmaps =>
        have hm0' := mt (hasCallbackMappings_iff _ cb).mpr hnmaps
        have hm0 : ¬(0 < countV cb s.handlerToCallback +
            countV cb (eraseK id s.sourceToCallback)) := by
          intro hpos0
          apply hm0'
          show 0 < countV cb Y.handlerToCallback +
            countV cb Y.sourceToCallback
          rw [hY1, hY2]
          exact hpos0
        have hcB2 : cB = 2 := by omega
        have hc2 : lookupK cb ({ Y with callbackRefCount := insertK cb (cB - 1) Y.callbackRefCount } : CallbackState).callbackRefCount = some (cB - 1) :=
          lookupK_insertK_self _ _ _
        have hrel2 : ¬(cB - 1) - 1 > 0 := by omega
        rw [releaseCallbackRef_found_zero hc2 hrel2]
        refine ⟨?_, ?_, ?_, ?_, ?_, ?_⟩
        · show keysNodup Y.handlerToCallback
          rw [hY2]
          exact h.hnd
        · show keysNodup Y.sourceToCallback
          rw [hY1]
          exact keysNodup_eraseK id h.snd
        · intro t c hc
          have hc' : lookupK t (eraseK cb (insertK cb (cB - 1)
              Y.callbackRefCount)) = some c := hc
          by_cases ht : t = cb
          · rw [ht, lookupK_eraseK_self] at hc'
            cases hc'
          · rw [lookupK_eraseK_ne ht, lookupK_insertK_ne ht, hY4] at hc'
            exact h.pos t c hc'
        · intro t c hc
          have hc' : lookupK t (eraseK cb (insertK cb (cB - 1)
              Y.callbackRefCount)) = some c := hc
          show (↑(countV t Y.handlerToCallback +
            countV t Y.sourceToCallback) : Int) ≤ c
          rw [hY1, hY2]
          by_cases ht : t = cb
          · rw [ht, lookupK_eraseK_self] at hc'
            cases hc'
          · rw [lookupK_eraseK_ne ht, lookupK_insertK_ne ht, hY4] at hc'
            have := h.lower t c hc'
            rw [hdefm t] at this
            rw [hENe t ht]
            omega
        · intro t c hc
          have hc' : lookupK t (eraseK cb (insertK cb (cB - 1)
              Y.callbackRefCount)) = some c := hc
          show (c : Int) ≤ ↑(countV t Y.handlerToCallback +
            countV t Y.sourceToCallback) + 1
          rw [hY1, hY2]
          by_cases ht : t = cb
          · rw [ht, lookupK_eraseK_self] at hc'
            cases hc'
          · rw [lookupK_eraseK_ne ht, lookupK_insertK_ne ht, hY4] at hc'
            have := h.upper t c hc'
            rw [hdefm t] at this
            rw [hENe t ht]
            omega
        · intro t hc
          have hc' : lookupK t (eraseK cb (insertK cb (cB - 1)
              Y.callbackRefCount)) = none := hc
          show countV t Y.handlerToCallback +
            countV t Y.sourceToCallback = 0
          rw [hY1, hY2]
          by_cases ht : t = cb
          · rw [ht]
            omega
          · rw [lookupK_eraseK_ne ht, lookupK_insertK_ne ht, hY4] at hc'
            have := h.zero t hc'
            rw [hdefm t] at this
            rw [hENe t ht]
            omega
    · have hcB1 : cB = 1 := by omega
      have hm1 : countV cb s.handlerToCallback +
          countV cb s.sourceToCallback = 1 := by omega
      rw [releaseCallbackRef_found_zero hcY hrel]
      split
      · next hmaps =>
        have h2 := (hasCallbackMappings_iff _ cb).mp hmaps
        have h3 : mcount ({ Y with callbackRefCount := eraseK cb Y.callbackRefCount, refs := eraseK cb Y.refs, closures := eraseK cb Y.closures } : CallbackState) cb =
            countV cb s.handlerToCallback +
              countV cb (eraseK id s.sourceToCallback) := by
          show countV cb Y.handlerToCallback +
            countV cb Y.sourceToCallback = _
          rw [hY1, hY2]
        rw [h3] at h2
        omega
      · next hnmaps =>
        have hc2 : lookupK cb ({ Y with callbackRefCount := eraseK cb Y.callbackRefCount, refs := eraseK cb Y.refs, closures := eraseK cb Y.closures } : CallbackState).callbackRefCount = none :=
          lookupK_eraseK_self _ _
        rw [releaseCallbackRef_none hc2]
        refine ⟨?_, ?_, ?_, ?_, ?_, ?_⟩
        · show keysNodup Y.handlerToCallback
          rw [hY2]
          exact h.hnd
        · show keysNodup Y.sourceToCallback
          rw [hY1]
          exact keysNodup_eraseK id h.snd
        · intro t c hc
          have hc' : lookupK t (eraseK cb Y.callbackRefCount) = some c := hc
          by_cases ht : t = cb
          · rw [ht, lookupK_eraseK_self] at hc'
            cases hc'
          · rw [lookupK_eraseK_ne ht, hY4] at hc'
            exact h.pos t c hc'
        · intro t c hc
          have hc' : lookupK t (eraseK cb Y.callbackRefCount) = some c := hc
          show (↑(countV t Y.handlerToCallback +
            countV t Y.sourceToCallback) : Int) ≤ c
          rw [hY1, hY2]
          by_cases ht : t = cb
          · rw [ht, lookupK_eraseK_self] at hc'
            cases hc'
          · rw [lookupK_eraseK_ne ht, hY4] at hc'
            have := h.lower t c hc'
            rw [hdefm t] at this
            rw [hENe t ht]
            omega
        · intro t c hc
          have hc' : lookupK t (eraseK cb Y.callbackRefCount) = some c := hc
          show (c : Int) ≤ ↑(countV t Y.handlerToCallback +
            countV t Y.sourceToCallback) + 1
          rw [hY1, hY2]
          by_cases ht : t = cb
          · rw [ht, lookupK_eraseK_self] at hc'
            cases hc'
          · rw [lookupK_eraseK_ne ht, hY4] at hc'
            have := h.upper t c hc'
            rw [hdefm t] at this
            rw [hENe t ht]
            omega
        · intro t hc
          have hc' : lookupK t (eraseK cb Y.callbackRefCount) = none := hc
          show countV t Y.handlerToCallback +
            countV t Y.sourceToCallback = 0
          rw [hY1, hY2]
          by_cases ht : t = cb
          · rw [ht]
            omega
          · rw [lookupK_eraseK_ne ht, hY4] at hc'
            have := h.zero t hc'
            rw [hdefm t] at this
            rw [hENe t ht]
            omega

theorem RegistryInv.removeCallbackBySource {s : CallbackState}
    (h : RegistryInv s) (id : Nat) :
    RegistryInv (RemoveCallbackBySource s id) := by
  cases hl : lookupK id s.sourceToCallback with
  | none =>
    rw [RemoveCallbackBySource_of_lookupK_none hl]
    exact h
  | some cb =>
    rw [RemoveCallbackBySource_found hl]
    exact h.removeSourceAux hl _ rfl rfl rfl

theorem RegistryInv.applyOp {s : CallbackState} (h : RegistryInv s)
    (op : RegOp) : RegistryInv (Puregotk.applyOp s op) := by
  cases op with
  | SaveCallback c r => exact h.saveCallback c r
  | SaveCallbackWithClosure c r cl => exact h.saveCallbackWithClosure c r cl
  | RemoveCallback c => exact h.removeCallback c
  | SaveHandlerMapping i c => exact h.saveHandlerMapping i c
  | RemoveCallbackByHandler i => exact h.removeCallbackByHandler i
  | SaveSourceMapping i c => exact h.saveSourceMapping i c
  | RemoveCallbackBySource i => exact h.removeCallbackBySource i

theorem RegistryInv.callbacksInit : RegistryInv Puregotk.callbacksInit := by
  refine ⟨List.nodup_nil, List.nodup_nil, ?_, ?_, ?_, ?_⟩ <;>
    intro t <;> simp [lookupK, callbacksInit, mcount, countV]

theorem RegistryInv.applyOps (ops : List RegOp) :
    RegistryInv (Puregotk.applyOps Puregotk.callbacksInit ops) := by
  have hgen : ∀ (l : List RegOp) (s : CallbackState), RegistryInv s →
      RegistryInv (Puregotk.applyOps s l) := by
    intro l
    induction l with
    | nil => intro s hs; exact hs
    | cons op rest ih =>
      intro s hs
      exact ih _ (hs.applyOp op)
  exact hgen ops _ RegistryInv.callbacksInit

/-- C3 (amended): after any sequence of registry operations from the
initial state, every token with a stored reference count `c` satisfies
`mappings ≤ c ≤ mappings + 1` where `mappings` is the number of handler
plus source entries currently pointing at it, and `c ≥ 1` (in particular
never negative and never a stored zero); a token with no stored count has
no mappings.  The literal spec statement `c = mappings` fails because
SaveCallbackWithClosure stores count 1 before any mapping exists, biasing
registered tokens by one. -/
theorem refcount_bounds_mappings (ops : List RegOp) (t : Nat) :
    (∀ c, lookupK t (Puregotk.applyOps Puregotk.callbacksInit
        ops).callbackRefCount = some c →
      1 ≤ c ∧
      (mcount (Puregotk.applyOps Puregotk.callbacksInit ops) t : Int) ≤ c ∧
      c ≤ (mcount (Puregotk.applyOps Puregotk.callbacksInit ops) t : Int) + 1) ∧
    (lookupK t (Puregotk.applyOps Puregotk.callbacksInit
        ops).callbackRefCount = none →
      mcount (Puregotk.applyOps Puregotk.callbacksInit ops) t = 0) := by
  have h := RegistryInv.applyOps ops
  exact ⟨fun c hc => ⟨h.pos t c hc, h.lower t c hc, h.upper t c hc⟩,
    fun hc => h.zero t hc⟩

/-- Witness for the amended C3 after a registration plus one handler
mapping: the stored count 2 of token 1 lies between the single mapping
count 1 and 1 + 1. -/
theorem refcount_bounds_mappings_witness :
    1 ≤ (2 : Int) ∧
    (mcount (Puregotk.applyOps Puregotk.callbacksInit
      [RegOp.SaveCallbackWithClosure 1 10 20,
       RegOp.SaveHandlerMapping 5 1]) 1 : Int) ≤ 2 ∧
    (2 : Int) ≤ (mcount (Puregotk.applyOps Puregotk.callbacksInit
      [RegOp.SaveCallbackWithClosure 1 10 20,
       RegOp.SaveHandlerMapping 5 1]) 1 : Int) + 1 :=
  (refcount_bounds_mappings
    [RegOp.SaveCallbackWithClosure 1 10 20, RegOp.SaveHandlerMapping 5 1]
    1).1 2 (by decide)


end Puregotk
